import Mathlib

/-
Verification of the MathPad database import/export tools (MpImport.c,
MpExport.c, mpdb.h) via a shallow embedding in Lean 4.

Modelling conventions:
  - A file or byte stream is a `List Nat`; each element is one byte (0..255).
  - A C string in memory is the `List Nat` of its bytes before the NUL;
    the NUL terminator itself is therefore represented by the end of the
    list.  "*p" at the end of a string reads 0, modelled by `List.headD _ 0`.
  - Machine words are Nats; wrap-around is written explicitly with `% 256`,
    `% 65536`, `% 4294967296` at the points where the C types (Byte, Word,
    DWord) wrap.
  - Unbounded C loops (the unique-id search, the record-list chain, the
    line-reading loops) are given explicit fuel; in each case a lemma or a
    call-site bound shows the fuel chosen is large enough for the loop as
    the C program runs it, so the fuelled function agrees with the loop.
-/

/-! ### Endian codec (SwapWord / SwapDWord, MpImport.c lines 655-675)

A 2-byte memory cell is a pair of bytes, a 4-byte cell a pair of 2-byte
cells.  `SwapWord` exchanges the two bytes; `SwapDWord` exchanges the two
words and then swaps each word, exactly as the C source does. -/

/-- SwapWord: exchange the two bytes of a 2-byte cell. -/
def swapWord (p : Nat × Nat) : Nat × Nat := (p.2, p.1)

/-- SwapDWord: exchange the two 2-byte halves, then SwapWord each half. -/
def swapDWord (q : (Nat × Nat) × (Nat × Nat)) : (Nat × Nat) × (Nat × Nat) :=
  let r := (q.2, q.1)
  (swapWord r.1, swapWord r.2)

/-- Value of a 2-byte cell on the little-endian host the sources configure
(mpdb.h defines LITTLE_ENDIAN): low byte first. -/
def wordLE (p : Nat × Nat) : Nat := p.1 + 256 * p.2

/-- Value of a 4-byte cell on the little-endian host: low word first. -/
def dwordLE (q : (Nat × Nat) × (Nat × Nat)) : Nat := wordLE q.1 + 65536 * wordLE q.2

/-- Big-endian 16-bit value at byte offset `i` of a file, as the C code
computes it: read into host memory, then SwapWord. -/
def beWordAt (file : List Nat) (i : Nat) : Nat :=
  wordLE (swapWord (file.getD i 0, file.getD (i + 1) 0))

/-- Big-endian 32-bit value at byte offset `i` of a file, as the C code
computes it: read into host memory, then SwapDWord. -/
def beDWordAt (file : List Nat) (i : Nat) : Nat :=
  dwordLE (swapDWord ((file.getD i 0, file.getD (i + 1) 0),
                      (file.getD (i + 2) 0, file.getD (i + 3) 0)))

/-! ### In-memory records (struct Record, MpImport.c lines 19-24) -/

/-- One MathPad record as held in memory by MpImport: category number,
decimal places, secret flag, strip-zeros byte, and the text payload
(bytes of the C string, NUL not stored). -/
structure Rec where
  catnum : Nat
  places : Nat
  secret : Bool
  stripzeros : Nat
  text : List Nat
deriving DecidableEq

/-- Default record used with `List.getD` (stands for a never-read cell). -/
def defRec : Rec := { catnum := 0, places := 0, secret := false, stripzeros := 0, text := [] }

/-! ### Title matching (FindRecord, MpImport.c lines 594-612)

FindRecord walks the candidate title (`p1`) and a stored record's text
(`p2`) in lockstep while `*p1` is neither NUL nor PilotEOL (0x0A) and the
bytes agree, then declares a match iff the final bytes agree. -/

/-- The per-record comparison loop of FindRecord.  `t` is the import's
text (title source), `s` the stored record's text. -/
def titleMatch (t s : List Nat) : Bool :=
  match t with
  | [] => s.headD 0 == 0
  | a :: t' =>
    if a == 0 then s.headD 0 == 0
    else if a == 10 then s.headD 0 == 10
    else if a == s.headD 0 then titleMatch t' s.tail
    else false

/-- FindRecord, returning the position of the first matching record in the
linked list (the C function returns the node pointer; the index identifies
the same node for in-place replacement). -/
def findRecordIdx (title : List Nat) : List Rec → Option Nat
  | [] => none
  | r :: rest =>
    if titleMatch title r.text then some 0
    else (findRecordIdx title rest).map (· + 1)

/-- Number of records in a store whose stored title matches `t` (used to
state "the store contains exactly one/two records titled Foo"). -/
def countTitle (t : List Nat) (store : List Rec) : Nat :=
  (store.filter (fun r => titleMatch t r.text)).length

/-! ### Merge engine (ProcessImports, MpImport.c lines 233-272) -/

/-- Reply of the interactive Confirm prompt (Yes / No / All). -/
inductive ReplyType where
  | yes
  | no
  | all
deriving DecidableEq

/-- The conflict test of ProcessImports (lines 249-253): the import and the
existing record differ in text or in any setting. -/
def recDiffers (n r : Rec) : Bool :=
  n.text != r.text || n.catnum != r.catnum || n.secret != r.secret ||
    n.places != r.places || n.stripzeros != r.stripzeros

/-- One iteration of the ProcessImports loop for a parsed import `newrec`.
`allok` is the latched "apply to all" flag, `k` counts Confirm invocations
so far; the `oracle` supplies the reply of the `k`-th Confirm call.
Returns the updated store, flag and Confirm count.  AddRecord appends at
the end; ReplaceRecord substitutes the new record at the old record's
position and frees the old one. -/
def mergeOne (oracle : Nat → ReplyType) (store : List Rec) (allok : Bool)
    (k : Nat) (newrec : Rec) : List Rec × Bool × Nat :=
  match findRecordIdx newrec.text store with
  | none => (store ++ [newrec], allok, k)
  | some i =>
    let r := store.getD i defRec
    if recDiffers newrec r then
      let reply := if allok then ReplyType.yes else oracle k
      let k' := if allok then k else k + 1
      match reply with
      | ReplyType.all => (store.set i newrec, true, k')
      | ReplyType.yes => (store.set i newrec, allok, k')
      | ReplyType.no => (store ++ [newrec], allok, k')
    else (store, allok, k)

/-! ### Database reader (LoadDB, MpImport.c lines 100-226; the same header
checks appear in MpExport.c lines 62-92)

The file is a byte list.  LoadDB reads the 72-byte header prefix
(offsetof(DatabaseHdrType, recordList)), checks the type and creator tags
with strncmp and the version word after SwapWord, reads the app info
block, then walks the chain of record lists loading each entry. -/

/-- Error outcomes of the reader (the C program prints and exits; the
embedding returns the kind of failure instead). -/
inductive DBError where
  | formatError
  | ioError
deriving DecidableEq

/-- The 4 bytes of the type tag constant "Data" (MathPadType, mpdb.h). -/
def MathPadTypeB : List Nat := [68, 97, 116, 97]

/-- The 4 bytes of the creator tag constant "MthP" (MathPadCreator, mpdb.h). -/
def MathPadCreatorB : List Nat := [77, 116, 104, 80]

/-- strncmp(a, b, n) == 0: compare up to `n` bytes, stopping early at a
NUL (list end) that both sides share. -/
def strncmpEq : List Nat → List Nat → Nat → Bool
  | _, _, 0 => true
  | t, s, n + 1 =>
    let a := t.headD 0
    let b := s.headD 0
    if a != b then false
    else if a == 0 then true
    else strncmpEq t.tail s.tail n

/-- The 4 type-tag bytes of the header (offset 60 of the packed header). -/
def hdrType (file : List Nat) : List Nat := (file.drop 60).take 4

/-- The 4 creator-tag bytes of the header (offset 64). -/
def hdrCreator (file : List Nat) : List Nat := (file.drop 64).take 4

/-- The raw 2 version bytes of the header (offset 34) as loaded into the
little-endian host's Word before any swap. -/
def hdrVersionBytes (file : List Nat) : Nat × Nat := (file.getD 34 0, file.getD 35 0)

/-- The appInfoID field (offset 52) after SwapDWord, i.e. the absolute
offset of the app info block. -/
def hdrAppInfoID (file : List Nat) : Nat := beDWordAt file 52

/-- The header-validation and app-info phase of LoadDB (lines 109-140):
read the 72-byte header, reject on tag or version mismatch, then read the
309-byte app info block at appInfoID.  Returns the raw app info bytes and
the file position of the first record list (72, right after the header
prefix).  No record has been read yet at this point. -/
def openDB (file : List Nat) : Except DBError (List Nat × Nat) :=
  if file.length < 72 then Except.error DBError.ioError
  else if !(strncmpEq (hdrType file) MathPadTypeB 4 &&
            strncmpEq (hdrCreator file) MathPadCreatorB 4) then
    Except.error DBError.formatError
  else if wordLE (swapWord (hdrVersionBytes file)) != 1 then
    Except.error DBError.formatError
  else
    let mpinfo := (file.drop (hdrAppInfoID file)).take 309
    if mpinfo.length != 309 then Except.error DBError.ioError
    else Except.ok (mpinfo, 72)

/-- The record-text loading loop of LoadDB (lines 194-212): starting at
the text position, count `length = 1; while (fgetc(db) > 0) ++length;`,
seek back and fread `length` bytes into the text buffer.  The buffer thus
holds the bytes up to and including the 0x00 terminator (or up to end of
file); as a C string its content is the bytes before the first 0x00. -/
def loadEntryText (file : List Nat) (off : Nat) : List Nat :=
  let s := file.drop (off + 2)
  let len := 1 + (s.takeWhile (fun b => decide (0 < b))).length
  let buf := s.take len
  buf.takeWhile (fun b => b != 0)

/-- Loading one record entry (lines 169-215): category and secret come
from the entry's attribute byte, places and stripzeros from the two-byte
record header at the entry's offset, the text from the loop above. -/
def loadEntryRec (file : List Nat) (attr : Nat) (off : Nat) : Rec :=
  { catnum := Nat.land attr 15
    places := file.getD off 0
    secret := Nat.land attr 16 != 0
    stripzeros := file.getD (off + 1) 0
    text := loadEntryText file off }

/-- Read `n` record entries of 8 bytes each starting at file position
`pos`, loading the record each entry points to. -/
def readEntries (file : List Nat) (pos : Nat) : Nat → List Rec
  | 0 => []
  | n + 1 =>
    let off := beDWordAt file pos
    let attr := file.getD (pos + 4) 0
    loadEntryRec file attr off :: readEntries file (pos + 8) n

/-- Walk the chain of record lists (lines 143-225).  Each header is 6
bytes: 4-byte next-list offset, 2-byte entry count.  The fuel bounds the
chain length; LoadDB itself would loop forever on a cyclic chain, and
every caller here passes fuel larger than the file length so that any
chain of distinct positions is fully drained. -/
def readRecLists (file : List Nat) : Nat → Nat → Except DBError (List Rec)
  | _, 0 => Except.error DBError.ioError
  | listpos, fuel + 1 =>
    if file.length < listpos + 6 then Except.error DBError.ioError
    else
      let n := beWordAt file (listpos + 4)
      if decide (0 < n) && !(decide (listpos + 6 + 8 * n ≤ file.length)) then
        Except.error DBError.ioError
      else
        let rs := readEntries file (listpos + 6) n
        let next := beDWordAt file listpos
        if next == 0 then Except.ok rs
        else
          match readRecLists file next fuel with
          | Except.ok rs2 => Except.ok (rs ++ rs2)
          | Except.error e => Except.error e

/-- LoadDB: validate the header and read the app info block, then drain
the record-list chain.  The header checks run strictly before any record
is read. -/
def loadDB (file : List Nat) : Except DBError (List Nat × List Rec) :=
  match openDB file with
  | Except.error e => Except.error e
  | Except.ok (mpinfo, listpos) =>
    match readRecLists file listpos (file.length + 1) with
    | Except.ok rs => Except.ok (mpinfo, rs)
    | Except.error e => Except.error e

/-- A concrete minimal well-formed file for the C2 witness: 72-byte header
with version 1, appInfoID 72, the "Data"/"MthP" tags, followed by a
309-byte app info block. -/
def c2File : List Nat :=
  List.replicate 34 0 ++ [0, 1] ++ List.replicate 16 0 ++ [0, 0, 0, 72] ++
    List.replicate 4 0 ++ [68, 97, 116, 97] ++ [77, 116, 104, 80] ++
    List.replicate 4 0 ++ List.replicate 309 0

/-! ### Category table (MathPadAppInfoType; LoadImport lines 417-455)

Labels are C strings of up to 15 bytes held in 16 fixed slots; a slot is
free iff its label is empty.  `categoryUniqIDs` is the parallel 16-byte
id array and `lastUniqID` the running Byte counter. -/

/-- The category portion of the global MpInfo: 16 label slots, their
unique ids, and the last-assigned-id counter. -/
structure AppInfo where
  labels : List (List Nat)
  uids : List Nat
  lastUniqID : Nat
deriving DecidableEq

/-- Index of the first list element satisfying `p` (the C for-loops
`for (i = 0; i < 16; ++i) if (p) break;` over the label slots). -/
def firstIdxSat (p : List Nat → Bool) : List (List Nat) → Option Nat
  | [] => none
  | lab :: rest =>
    if p lab then some 0 else (firstIdxSat p rest).map (· + 1)

/-- The unique-id search loop (lines 447-452):
`do { ++lastUniqID; for (i...) if (uids[i] == lastUniqID) break; } while (i < 16)`.
`lastUniqID` is a Byte, so the increment wraps at 256.  The C loop has no
bound; 256 steps of fuel always suffice when `uids` has 16 entries
(proved below), so the fuelled function computes the loop's result. -/
def nextUniqIDAux (uids : List Nat) : Nat → Nat → Option Nat
  | _, 0 => none
  | last, fuel + 1 =>
    let cand := (last + 1) % 256
    if uids.contains cand then nextUniqIDAux uids cand fuel else some cand

/-- Category lookup / allocation for one import (lines 427-455): find the
label matching `catname`; otherwise find the first free slot; if none,
fall back to Unfiled (0) leaving the table untouched; otherwise store the
name, run the unique-id loop and record the new id. -/
def lookupOrAllocate (info : AppInfo) (catname : List Nat) : Nat × AppInfo :=
  match firstIdxSat (fun lab => lab == catname) info.labels with
  | some i => (i, info)
  | none =>
    match firstIdxSat (fun lab => lab.isEmpty) info.labels with
    | none => (0, info)
    | some j =>
      match nextUniqIDAux info.uids info.lastUniqID 256 with
      | none => (0, info)
      | some id =>
        (j, { labels := info.labels.set j catname,
              uids := info.uids.set j id,
              lastUniqID := id })

/-- The id the allocation assigns: result of the search loop with the
256-step fuel shown sufficient above. -/
def allocUniqID (info : AppInfo) : Nat :=
  (nextUniqIDAux info.uids info.lastUniqID 256).getD 0

/-- Concrete category table for the C5 witness: slot 0 "Unfiled", slot 1
the first free slot, all ids 0, counter 0. -/
def c5Info : AppInfo :=
  { labels := [85, 110, 102, 105, 108, 101, 100] :: List.replicate 15 [],
    uids := List.replicate 16 0,
    lastUniqID := 0 }

/-- Concrete full table for the C6 witness: 16 distinct one-byte labels. -/
def c6Info : AppInfo :=
  { labels := (List.range 16).map (fun i => [65 + i]),
    uids := List.range 16,
    lastUniqID := 15 }

/-! ### Text import parser: the category line (LoadImport lines 412-467)

The first 12 bytes of a category line are the fixed text before the
opening quote.  The name is the text between the first quote and the
next quote, truncated to dmCategoryLength-1 = 15 bytes before lookup. -/

/-- The 12 comparison bytes of CategoryLine, the text before the opening
quote (CatTestLength = 12). -/
def catLineMark : List Nat := [67, 97, 116, 101, 103, 111, 114, 121, 32, 61, 32, 34]

/-- The 9 comparison bytes of PlacesLine (PlacesTestLength = 9). -/
def placesMark : List Nat := [80, 108, 97, 99, 101, 115, 32, 61, 32]

/-- Extraction of the category name from a category line (lines 417-424):
`start = strchr(buff, quote) + 1; end = strchr(start, quote);` then copy
at most 15 bytes of `[start, end)`.  A missing closing quote is undefined
behaviour in the C original; the embedding takes the rest of the line. -/
def parseCatName (l : List Nat) : List Nat :=
  let afterQ := (l.dropWhile (fun b => b != 34)).tail
  let rawName := afterQ.takeWhile (fun b => b != 34)
  let catlength := if 16 ≤ rawName.length then 15 else rawName.length
  rawName.take catlength

/-- The category lookup or allocation performed for a category line:
LoadImport applies `lookupOrAllocate` to the extracted (truncated) name. -/
def categoryOf (info : AppInfo) (l : List Nat) : Nat × AppInfo :=
  lookupOrAllocate info (parseCatName l)

/-! ### Database writer (SaveDB, MpImport.c lines 277-384)

SaveDB writes, in order: the 72-byte header prefix (placeholder, patched
in pass 2), one record-list header (6 bytes: next-list offset 0 and the
entry count), the 8-byte-per-entry array (placeholder, patched in pass
2), the 309-byte app info block, then each record's 2-byte header, text
and NUL terminator, recording ftell() in the entry as each record is
written.  Pass 2 patches the header (current time into the three dates,
the app info offset) and the entry array. -/

/-- One record-list entry as SaveDB fills it in (lines 335-341). -/
structure EntryOut where
  offset : Nat
  attributes : Nat
  uniqueID : List Nat
deriving DecidableEq

/-- Default entry for `List.getD`. -/
def defEntry : EntryOut := { offset := 0, attributes := 0, uniqueID := [] }

/-- The bytes SaveDB writes for one record: places byte, stripzeros byte,
then the text followed by its NUL terminator (lines 344-357). -/
def recordBytes (r : Rec) : List Nat :=
  r.places % 256 :: r.stripzeros % 256 :: (r.text ++ [0])

/-- The attribute byte of an entry: category number with the secret bit
or-ed in (lines 338-340). -/
def attrOf (r : Rec) : Nat :=
  Nat.lor r.catnum (if r.secret then 16 else 0)

/-- The record-writing loop (lines 331-360): write each record at the
current position, filling its entry with that position, the attribute
byte and zeroed unique-ID bytes.  Returns the entries and the bytes. -/
def writeRecords : List Rec → Nat → List EntryOut × List Nat
  | [], _ => ([], [])
  | r :: rs, pos =>
    let e : EntryOut := { offset := pos, attributes := attrOf r, uniqueID := [0, 0, 0] }
    let bytes := recordBytes r
    let rest := writeRecords rs (pos + bytes.length)
    (e :: rest.1, bytes ++ rest.2)

/-- Big-endian serialization of a 32-bit value (fwrite after SwapDWord). -/
def beDWordBytes (n : Nat) : List Nat :=
  [n / 16777216 % 256, n / 65536 % 256, n / 256 % 256, n % 256]

/-- Big-endian serialization of a 16-bit value (fwrite after SwapWord). -/
def beWordBytes (n : Nat) : List Nat := [n / 256 % 256, n % 256]

/-- Serialized form of one entry: 4-byte big-endian offset, attribute
byte, 3 unique-ID bytes. -/
def entryBytes (e : EntryOut) : List Nat :=
  beDWordBytes e.offset ++ [e.attributes % 256] ++ e.uniqueID

/-- Pass 2's header patch (lines 362-375): current time into the three
4-byte dates at offsets 36/40/44, the app info offset into bytes 52-55;
everything else is kept from the in-memory header. -/
def patchHdr (hdr : List Nat) (now : Nat) (appid : Nat) : List Nat :=
  hdr.take 36 ++ beDWordBytes (now % 4294967296) ++ beDWordBytes (now % 4294967296) ++
    beDWordBytes (now % 4294967296) ++ (hdr.drop 48).take 4 ++ beDWordBytes appid ++
    hdr.drop 56

/-- Result of SaveDB: the record-list header fields, the patched entry
array, and the full file image. -/
structure SaveOut where
  nextRecordListID : Nat
  numRecords : Nat
  entries : List EntryOut
  file : List Nat
deriving DecidableEq

/-- SaveDB.  `hdr` is the 72-byte in-memory header prefix, `mpinfo` the
309-byte app info image, `now` the current time.  NumRecords is a Word,
so the stored entry count wraps at 65536. -/
def saveDB (hdr mpinfo : List Nat) (records : List Rec) (now : Nat) : SaveOut :=
  let n := records.length
  let recpos := 72 + 6 + 8 * n + 309
  let out := writeRecords records recpos
  { nextRecordListID := 0
    numRecords := n % 65536
    entries := out.1
    file := patchHdr hdr now (72 + 6 + 8 * n) ++
      (beDWordBytes 0 ++ beWordBytes (n % 65536)) ++
      (out.1.map entryBytes).flatten ++ mpinfo ++ out.2 }

/-- Sum of the on-disk sizes of a list of records. -/
def sumLen (rs : List Rec) : Nat := (rs.map (fun r => (recordBytes r).length)).sum

/-- Concrete inputs for the C7 witness. -/
def c7Hdr : List Nat := List.replicate 72 0

/-- Concrete app info image for the C7 witness. -/
def c7Mp : List Nat := List.replicate 309 0

/-- Concrete one-record store for the C7 witness. -/
def c7Recs : List Rec :=
  [{ catnum := 1, places := 2, secret := true, stripzeros := 1, text := [72, 105] }]

/-! ### Line input (ReadLine, MpImport.c lines 524-540)

ReadLine reads one line with fgets into a 256-byte buffer (so at most 255
bytes including the newline), returns 0 for a separator line (first 27
bytes are tildes), -1 at end of file, and otherwise rewrites the line's
terminator (NUL, CR or LF) to the single PilotEOL byte 0x0A. -/

/-- Result of one ReadLine call: end of file, separator line, or a line
(always ending in the 0x0A 'PilotEOL' byte) plus the remaining stream. -/
inductive LineRes where
  | eofR
  | sepR (rest : List Nat)
  | lineR (line : List Nat) (rest : List Nat)
deriving DecidableEq

/-- fgets(buff, size, fp) for size-1 = n: take bytes up to and including
the first 0x0A, but at most `n` of them; return the chunk and the rest. -/
def fgetsTake : Nat → List Nat → List Nat × List Nat
  | 0, s => ([], s)
  | _, [] => ([], [])
  | n + 1, b :: s =>
    if b == 10 then ([10], s)
    else
      let r := fgetsTake n s
      (b :: r.1, r.2)

/-- ReadLine: fgets a chunk of at most 255 bytes; report separator when
the chunk starts with 27 tildes; otherwise trim at the first NUL/LF/CR
and append the PilotEOL byte. -/
def readLine (s : List Nat) : LineRes :=
  if s.isEmpty then LineRes.eofR
  else
    let r := fgetsTake 255 s
    if r.1.take 27 == List.replicate 27 126 then LineRes.sepR r.2
    else
      LineRes.lineR
        ((r.1.takeWhile (fun b => b != 0 && b != 10 && b != 13)) ++ [10]) r.2

/-- The blank-line-skipping loop that starts LoadImport (lines 397-399):
`do { linelength = ReadLine(...); } while (linelength == 1);`.  The fuel
is the stream length plus one; every ReadLine consumes at least one byte,
so the loop always ends within the fuel. -/
def firstNonBlankF : Nat → List Nat → LineRes
  | 0, _ => LineRes.eofR
  | f + 1, s =>
    match readLine s with
    | LineRes.lineR l rest =>
      if l.length == 1 then firstNonBlankF f rest else LineRes.lineR l rest
    | r => r

/-- The text-accumulation loop of LoadImport (lines 504-512): append each
further line to the record text until ReadLine reports a separator (0) or
end of file (-1).  Fuel as in `firstNonBlankF`. -/
def readTextF : Nat → List Nat → List Nat → List Nat × List Nat
  | 0, acc, s => (acc, s)
  | f + 1, acc, s =>
    match readLine s with
    | LineRes.eofR => (acc, [])
    | LineRes.sepR rest => (acc, rest)
    | LineRes.lineR l rest => readTextF f (acc ++ l) rest

/-! ### Numeric parsing (atoi) and printing (printf %d) -/

/-- isspace() on a byte, as atoi skips leading whitespace. -/
def isSpaceB (b : Nat) : Bool := b == 32 || (9 ≤ b && b ≤ 13)

/-- Decimal digits consumed left to right with an accumulator; stops at
the first non-digit byte. -/
def digsVal : List Nat → Nat → Nat
  | [], acc => acc
  | b :: r, acc =>
    if 48 ≤ b && b ≤ 57 then digsVal r (acc * 10 + (b - 48)) else acc

/-- atoi(s): skip whitespace, optional sign, then decimal digits. -/
def atoiM (s : List Nat) : Int :=
  match s.dropWhile isSpaceB with
  | [] => 0
  | b :: r =>
    if b == 45 then -(digsVal r 0 : Int)
    else if b == 43 then (digsVal r 0 : Int)
    else (digsVal (b :: r) 0 : Int)

/-- Conversion of an int to Byte, as in `(Byte)atoi(start)`. -/
def byteOfInt (i : Int) : Nat := (i % 256).toNat

/-- printf("%d", n) for a nonnegative value, most significant digit
first.  The fuel argument makes the division loop structural; `decDigits`
supplies fuel n+1, always sufficient since n/10 < n. -/
def decDigitsF : Nat → Nat → List Nat
  | 0, _ => []
  | f + 1, n => if n < 10 then [48 + n] else decDigitsF f (n / 10) ++ [48 + n % 10]

/-- Decimal digits of `n` in ASCII. -/
def decDigits (n : Nat) : List Nat := decDigitsF (n + 1) n

/-! ### The rest of LoadImport (lines 389-516) -/

/-- Extraction of the Secret flag from a category line (lines 457-459):
`start = strchr(end+1, '=') + 1; secret = atoi(start) != 0;` where `end`
is the closing quote of the category name. -/
def parseSecretVal (l : List Nat) : Bool :=
  let afterQ := (l.dropWhile (fun b => b != 34)).tail
  let afterName := (afterQ.dropWhile (fun b => b != 34)).tail
  let afterEq := (afterName.dropWhile (fun b => b != 61)).tail
  atoiM afterEq != 0

/-- Extraction of places and stripzeros from a places line (lines
474-480): places from after the first '=', stripzeros from after the
next '='.  TRUE is 1 in the C sources. -/
def parsePlacesVals (l : List Nat) : Nat × Nat :=
  let afterEq1 := (l.dropWhile (fun b => b != 61)).tail
  let places := byteOfInt (atoiM afterEq1)
  let afterEq2 := (afterEq1.dropWhile (fun b => b != 61)).tail
  let strip := if atoiM afterEq2 != 0 then 1 else 0
  (places, strip)

/-- The category-line stage of LoadImport (lines 412-467): if the first
line is not a category line it flows unchanged to the next stage with
default category/secret; otherwise the name is looked up or allocated,
the secret flag parsed, and the next line read (a failed read aborts the
record, keeping any category-table change). -/
def stageCategory (info : AppInfo) (l1 s1 : List Nat) :
    Nat × Bool × AppInfo × Option (List Nat × List Nat) :=
  if l1.take 12 == catLineMark then
    let ci := categoryOf info l1
    let sec := parseSecretVal l1
    match readLine s1 with
    | LineRes.lineR l2 s2 => (ci.1, sec, ci.2, some (l2, s2))
    | _ => (ci.1, sec, ci.2, none)
  else (0, false, info, some (l1, s1))

/-- The places-line stage of LoadImport (lines 469-488): defaults are 14
places and stripzeros TRUE. -/
def stagePlaces (l2 s2 : List Nat) : Nat × Nat × Option (List Nat × List Nat) :=
  if l2.take 9 == placesMark then
    let pv := parsePlacesVals l2
    match readLine s2 with
    | LineRes.lineR l3 s3 => (pv.1, pv.2, some (l3, s3))
    | _ => (pv.1, pv.2, none)
  else (14, 1, some (l2, s2))

/-- LoadImport: skip blank lines; at end of file (or a separator as first
line, whose ReadLine result 0 is < 1) return no record; otherwise run the
category and places stages, then accumulate text lines until the
separator, and replace the final line terminator with the string NUL
(modelled by dropping the accumulated text's last byte). -/
def loadImport (info : AppInfo) (s : List Nat) : AppInfo × Option (Rec × List Nat) :=
  match firstNonBlankF (s.length + 1) s with
  | LineRes.eofR => (info, none)
  | LineRes.sepR _ => (info, none)
  | LineRes.lineR l1 s1 =>
    match stageCategory info l1 s1 with
    | (_, _, info2, none) => (info2, none)
    | (catnum, secret, info2, some (l2, s2)) =>
      match stagePlaces l2 s2 with
      | (_, _, none) => (info2, none)
      | (places, strip, some (l3, s3)) =>
        let res := readTextF (s3.length + 1) l3 s3
        (info2, some ({ catnum := catnum, places := places, secret := secret,
                        stripzeros := strip, text := res.1.dropLast }, res.2))

/-- The ProcessImports loop with explicit fuel (one unit per LoadImport
call; the stream shrinks at every successful parse, so fuel beyond the
stream length never runs out). -/
def processImportsF (oracle : Nat → ReplyType) :
    Nat → List Nat → List Rec → AppInfo → Bool → Nat →
      List Rec × AppInfo × Bool × Nat
  | 0, _, store, info, allok, k => (store, info, allok, k)
  | fuel + 1, s, store, info, allok, k =>
    match loadImport info s with
    | (info2, none) => (store, info2, allok, k)
    | (info2, some (newrec, rest)) =>
      let m := mergeOne oracle store allok k newrec
      processImportsF oracle fuel rest m.1 info2 m.2.1 m.2.2

/-- ProcessImports: drive LoadImport over the whole text stream, merging
each parsed record into the store. -/
def processImports (oracle : Nat → ReplyType) (s : List Nat) (store : List Rec)
    (info : AppInfo) (allok : Bool) (k : Nat) : List Rec × AppInfo × Bool × Nat :=
  processImportsF oracle (s.length + 1) s store info allok k

/-! ### MpExport's output (MpExport.c lines 136-147)

For each record MpExport prints the category line, the places line, the
record text followed by a newline, and the separator line. -/

/-- The bytes between the category name's closing quote and the secret
digit in CategoryLine. -/
def secretMid : List Nat := [34, 59, 32, 83, 101, 99, 114, 101, 116, 32, 61, 32]

/-- The bytes between the places digits and the stripzeros digit in
PlacesLine. -/
def stripMid : List Nat := [59, 32, 83, 116, 114, 105, 112, 90, 101, 114, 111, 115, 32, 61, 32]

/-- The separator line: 27 tildes and a newline. -/
def sepLineOut : List Nat := List.replicate 27 126 ++ [10]

/-- The category line printed for a record with label `lab` and the given
secret flag. -/
def categoryLineOut (lab : List Nat) (secret : Bool) : List Nat :=
  catLineMark ++ lab ++ secretMid ++ decDigits (if secret then 1 else 0) ++ [10]

/-- The places line printed for the given places and stripzeros bytes. -/
def placesLineOut (places strip : Nat) : List Nat :=
  placesMark ++ decDigits places ++ stripMid ++ decDigits strip ++ [10]

/-- The text MpExport prints for one record: the two settings lines, the
record text, a newline, and the separator line. -/
def exportRecord (info : AppInfo) (r : Rec) : List Nat :=
  categoryLineOut (info.labels.getD r.catnum []) r.secret ++
    placesLineOut r.places r.stripzeros ++ (r.text ++ [10]) ++ sepLineOut

/-- The full export of a database: the records in store order. -/
def exportDB (info : AppInfo) (records : List Rec) : List Nat :=
  (records.map (exportRecord info)).flatten

/-! ### Well-formedness of a database for the round-trip property -/

/-- Split a byte list at every 0x0A (the chunks between newlines). -/
def splitNL : List Nat → List (List Nat)
  | [] => [[]]
  | b :: r =>
    if b == 10 then [] :: splitNL r
    else
      match splitNL r with
      | c :: cs => (b :: c) :: cs
      | [] => [[b]]

/-- A record text survives the text round trip when it has no NUL or CR
byte, every line fits the 256-byte ReadLine buffer, and no line is taken
for a separator. -/
def goodTextB (T : List Nat) : Bool :=
  T.all (fun b => b != 0 && b != 13) &&
    (splitNL T).all (fun c =>
      decide (c.length ≤ 254) && c.take 27 != List.replicate 27 126)

/-- A category label round-trips when it fits its 16-byte slot and avoids
the bytes that terminate a line or the quoted name. -/
def goodLabel (lab : List Nat) : Bool :=
  decide (lab.length ≤ 15) && lab.all (fun b => b != 0 && b != 10 && b != 13 && b != 34)

/-- Well-formedness of the category table for the round trip. -/
def goodInfo (info : AppInfo) : Bool :=
  (info.labels.length == 16) && info.labels.all goodLabel

/-- Well-formedness of one record for the round trip: category index in
range and canonical (looking its label up returns the same index), places
a Byte, stripzeros a C boolean, and round-trippable text. -/
def goodRec (info : AppInfo) (r : Rec) : Bool :=
  decide (r.catnum < 16) &&
    (firstIdxSat (fun lab => lab == info.labels.getD r.catnum []) info.labels ==
      some r.catnum) &&
    decide (r.places < 256) && decide (r.stripzeros ≤ 1) && goodTextB r.text

/-- Concrete duplicate-title records for the C8 counterexample: both are
titled "A" (first line), with different second lines. -/
def c8r1 : Rec := { catnum := 0, places := 14, secret := false, stripzeros := 1,
                    text := [65, 10, 66] }

/-- The second duplicate-title record. -/
def c8r2 : Rec := { catnum := 0, places := 14, secret := false, stripzeros := 1,
                    text := [65, 10, 67] }

/-- Concrete record for the C8 witness: a single record titled "Hi". -/
def c8w : Rec := { catnum := 0, places := 14, secret := false, stripzeros := 1,
                   text := [72, 105] }

/-! ## Theorems -/

/-! ### Basic lemmas about the above -/

theorem titleMatch_self : ∀ t : List Nat, titleMatch t t = true := by
  intro t
  induction t with
  | nil => simp [titleMatch]
  | cons a t' ih =>
    by_cases h0 : a = 0
    · simp [titleMatch, h0]
    · by_cases h10 : a = 10
      · simp [titleMatch, h10]
      · simp [titleMatch, h0, h10, ih]

theorem findRecordIdx_spec :
    ∀ (l : List Rec) (t : List Nat) (i : Nat), findRecordIdx t l = some i →
      i < l.length ∧ titleMatch t (l.getD i defRec).text = true := by
  intro l
  induction l with
  | nil => intro t i h; simp [findRecordIdx] at h
  | cons r rest ih =>
    intro t i h
    by_cases hm : titleMatch t r.text
    · simp [findRecordIdx, hm] at h
      subst h
      simpa using hm
    · simp [findRecordIdx, hm] at h
      obtain ⟨j, hj, rfl⟩ := h
      obtain ⟨h1, h2⟩ := ih t j hj
      constructor
      · simpa using h1
      · simpa using h2

theorem getD_set_self {α : Type} :
    ∀ (l : List α) (i : Nat) (v d : α), i < l.length → (l.set i v).getD i d = v := by
  intro l i v d h
  simp [List.getD_eq_getElem?_getD, List.getElem?_set_self', h]

theorem getD_set_other {α : Type} :
    ∀ (l : List α) (i j : Nat) (v d : α), i ≠ j → (l.set i v).getD j d = l.getD j d := by
  intro l i j v d h
  simp [List.getD_eq_getElem?_getD, List.getElem?_set_ne h]

theorem getD_mem {α : Type} (l : List α) (i : Nat) (d : α) (h : i < l.length) :
    l.getD i d ∈ l := by
  rw [List.getD_eq_getElem l d h]
  exact l.getElem_mem h

/-- Replacing a title-matching element by another title-matching element
keeps the number of title matches unchanged. -/
theorem countTitle_set (t : List Nat) :
    ∀ (l : List Rec) (i : Nat) (v : Rec), i < l.length →
      titleMatch t (l.getD i defRec).text = true → titleMatch t v.text = true →
      countTitle t (l.set i v) = countTitle t l := by
  intro l
  induction l with
  | nil => intro i v h; simp at h
  | cons r rest ih =>
    intro i v hi hold hnew
    cases i with
    | zero =>
      simp only [List.getD_cons_zero] at hold
      simp [countTitle, List.set, List.filter, hold, hnew]
    | succ j =>
      simp only [List.getD_cons_succ] at hold
      have hj : j < rest.length := by simpa using hi
      have := ih j v hj hold hnew
      simp only [countTitle] at this ⊢
      cases hr : titleMatch t r.text <;>
        simp [List.set, List.filter, hr, this]

theorem countTitle_append_one (t : List Nat) (l : List Rec) (v : Rec)
    (hv : titleMatch t v.text = true) :
    countTitle t (l ++ [v]) = countTitle t l + 1 := by
  simp [countTitle, List.filter_append, hv]

/-! ## C9: SwapWord and SwapDWord are involutions -/

/-- C9: SwapWord and SwapDWord are involutions: swapping a 2-byte value
twice, or a 4-byte value twice, restores the original value (LoadDB relies
on this when it swaps the version word, checks it, and swaps it back). -/
theorem c9_swap_involution :
    (∀ p : Nat × Nat, swapWord (swapWord p) = p) ∧
    (∀ q : (Nat × Nat) × (Nat × Nat), swapDWord (swapDWord q) = q) := by
  constructor
  · intro p; rfl
  · intro q; rfl

/-! ## C4: title lookup is a full-line match -/

/-- C4: FindRecord's per-record match (`titleMatch`) succeeds iff the stored
text agrees with the import's title on every byte position before the
title's line terminator (0x0A) and the stored text's byte at that next
position is also the terminator — a full-line match, not a true prefix
match.  `(t.takeWhile (· != 10)).length` is the position of the first
terminator in the title; the hypotheses say the import title does contain
a terminator and, being a C string, contains no NUL byte. -/
theorem c4_title_full_line (t s : List Nat) (h10 : 10 ∈ t) (h0 : 0 ∉ t) :
    titleMatch t s = true ↔
      (t.take (t.takeWhile (fun b => b != 10)).length =
         s.take (t.takeWhile (fun b => b != 10)).length ∧
       s.getD (t.takeWhile (fun b => b != 10)).length 0 = 10) := by
  induction t generalizing s with
  | nil => cases h10
  | cons a t' ih =>
    by_cases ha : a = 10
    · subst ha
      simp only [List.takeWhile]
      norm_num
      cases s with
      | nil =>
        simp [titleMatch]
      | cons b s' =>
        simp [titleMatch]
    · have ha0 : a ≠ 0 := fun h => h0 (by simp [h])
      have h10' : 10 ∈ t' := by
        cases h10 with
        | head => exact absurd rfl ha
        | tail _ h => exact h
      have h0' : 0 ∉ t' := fun h => h0 (List.mem_cons_of_mem _ h)
      simp only [List.takeWhile]
      have hane : (a != 10) = true := by simp [ha]
      rw [hane]
      simp only []
      cases s with
      | nil =>
        simp [titleMatch, ha, ha0, List.headD]
      | cons b s' =>
        by_cases hab : a = b
        · subst hab
          simp only [titleMatch, List.headD, List.tail]
          rw [if_neg (by simpa using ha0), if_neg (by simpa using ha)]
          rw [if_pos (by simp)]
          rw [ih s' h10' h0']
          simp only [List.take, List.getD_cons_succ, List.length_cons]
          constructor
          · rintro ⟨h1, h2⟩
            exact ⟨by rw [h1], h2⟩
          · rintro ⟨h1, h2⟩
            refine ⟨?_, h2⟩
            simpa using h1
        · simp only [titleMatch, List.headD]
          rw [if_neg (by simpa using ha0), if_neg (by simpa using ha)]
          rw [if_neg (by simpa using hab)]
          simp only [List.take, List.length_cons]
          constructor
          · intro h; cases h
          · rintro ⟨h1, _⟩
            exact absurd (by simpa using congrArg (List.headD · 0) h1) hab

/-- Witness for C4 at a concrete title and stored text: title "Foo\nx"
matches stored text "Foo\nbar" because the first lines agree. -/
theorem c4_witness :
    titleMatch [70, 111, 111, 10, 120] [70, 111, 111, 10, 98, 97, 114] = true ↔
      ([70, 111, 111, 10, 120].take
          (([70, 111, 111, 10, 120].takeWhile (fun b => b != 10)).length) =
        [70, 111, 111, 10, 98, 97, 114].take
          (([70, 111, 111, 10, 120].takeWhile (fun b => b != 10)).length) ∧
       [70, 111, 111, 10, 98, 97, 114].getD
          (([70, 111, 111, 10, 120].takeWhile (fun b => b != 10)).length) 0 = 10) :=
  c4_title_full_line [70, 111, 111, 10, 120] [70, 111, 111, 10, 98, 97, 114]
    (by decide) (by decide)

/-! ## C3: conflict resolution in the merge engine -/

/-- C3: for a parsed import whose title matches the existing record at
position `i` (the store holding exactly one record with that title) and
which differs from it in some field, one iteration of the merge engine:
with overwrite-all already latched, invokes the Confirm callback zero
times and overwrites in place; otherwise invokes it exactly once and, on
Yes, overwrites in place (exactly one record with that title remains,
holding the import's fields, at the replaced record's position); on No,
appends the import at the end (two records with that title); on All,
overwrites in place and latches the flag. -/
theorem c3_conflict_resolution (oracle : Nat → ReplyType) (store : List Rec)
    (imp : Rec) (i k : Nat)
    (hfind : findRecordIdx imp.text store = some i)
    (hdiff : recDiffers imp (store.getD i defRec) = true)
    (hone : countTitle imp.text store = 1) :
    (mergeOne oracle store true k imp = (store.set i imp, true, k) ∧
       countTitle imp.text (store.set i imp) = 1) ∧
    (oracle k = ReplyType.yes →
       mergeOne oracle store false k imp = (store.set i imp, false, k + 1) ∧
       countTitle imp.text (store.set i imp) = 1) ∧
    (oracle k = ReplyType.no →
       mergeOne oracle store false k imp = (store ++ [imp], false, k + 1) ∧
       countTitle imp.text (store ++ [imp]) = 2) ∧
    (oracle k = ReplyType.all →
       mergeOne oracle store false k imp = (store.set i imp, true, k + 1) ∧
       countTitle imp.text (store.set i imp) = 1) := by
  obtain ⟨hilen, hmatch⟩ := findRecordIdx_spec store imp.text i hfind
  have hcnt : countTitle imp.text (store.set i imp) = 1 := by
    rw [countTitle_set imp.text store i imp hilen hmatch (titleMatch_self imp.text)]
    exact hone
  have happ : countTitle imp.text (store ++ [imp]) = 2 := by
    rw [countTitle_append_one imp.text store imp (titleMatch_self imp.text), hone]
  have hdiff' : recDiffers imp (store[i]?.getD defRec) = true := by
    rwa [List.getD_eq_getElem?_getD] at hdiff
  refine ⟨⟨?_, hcnt⟩, fun hy => ⟨?_, hcnt⟩, fun hn => ⟨?_, happ⟩, fun ha => ⟨?_, hcnt⟩⟩
  · simp [mergeOne, hfind, hdiff']
  · simp [mergeOne, hfind, hdiff', hy]
  · simp [mergeOne, hfind, hdiff', hn]
  · simp [mergeOne, hfind, hdiff', ha]

/-- Witness for C3: a one-record store titled "F\nA" and a conflicting
record titled "F\nB" imported into it; all hypotheses hold by computation. -/
theorem c3_witness :
    (mergeOne (fun _ => ReplyType.yes)
        [{ catnum := 0, places := 14, secret := false, stripzeros := 1,
           text := [70, 10, 65] }] true 0
        { catnum := 0, places := 14, secret := false, stripzeros := 1,
          text := [70, 10, 66] } =
      ([{ catnum := 0, places := 14, secret := false, stripzeros := 1,
          text := [70, 10, 65] }].set 0
        { catnum := 0, places := 14, secret := false, stripzeros := 1,
          text := [70, 10, 66] }, true, 0) ∧
     countTitle [70, 10, 66]
        ([{ catnum := 0, places := 14, secret := false, stripzeros := 1,
            text := [70, 10, 65] }].set 0
          { catnum := 0, places := 14, secret := false, stripzeros := 1,
            text := [70, 10, 66] }) = 1) ∧
    ((fun _ : Nat => ReplyType.yes) 0 = ReplyType.yes →
       mergeOne (fun _ => ReplyType.yes)
          [{ catnum := 0, places := 14, secret := false, stripzeros := 1,
             text := [70, 10, 65] }] false 0
          { catnum := 0, places := 14, secret := false, stripzeros := 1,
            text := [70, 10, 66] } =
        ([{ catnum := 0, places := 14, secret := false, stripzeros := 1,
            text := [70, 10, 65] }].set 0
          { catnum := 0, places := 14, secret := false, stripzeros := 1,
            text := [70, 10, 66] }, false, 0 + 1) ∧
       countTitle [70, 10, 66]
          ([{ catnum := 0, places := 14, secret := false, stripzeros := 1,
              text := [70, 10, 65] }].set 0
            { catnum := 0, places := 14, secret := false, stripzeros := 1,
              text := [70, 10, 66] }) = 1) ∧
    ((fun _ : Nat => ReplyType.yes) 0 = ReplyType.no →
       mergeOne (fun _ => ReplyType.yes)
          [{ catnum := 0, places := 14, secret := false, stripzeros := 1,
             text := [70, 10, 65] }] false 0
          { catnum := 0, places := 14, secret := false, stripzeros := 1,
            text := [70, 10, 66] } =
        ([{ catnum := 0, places := 14, secret := false, stripzeros := 1,
            text := [70, 10, 65] }] ++
          [{ catnum := 0, places := 14, secret := false, stripzeros := 1,
             text := [70, 10, 66] }], false, 0 + 1) ∧
       countTitle [70, 10, 66]
          ([{ catnum := 0, places := 14, secret := false, stripzeros := 1,
              text := [70, 10, 65] }] ++
            [{ catnum := 0, places := 14, secret := false, stripzeros := 1,
               text := [70, 10, 66] }]) = 2) ∧
    ((fun _ : Nat => ReplyType.yes) 0 = ReplyType.all →
       mergeOne (fun _ => ReplyType.yes)
          [{ catnum := 0, places := 14, secret := false, stripzeros := 1,
             text := [70, 10, 65] }] false 0
          { catnum := 0, places := 14, secret := false, stripzeros := 1,
            text := [70, 10, 66] } =
        ([{ catnum := 0, places := 14, secret := false, stripzeros := 1,
            text := [70, 10, 65] }].set 0
          { catnum := 0, places := 14, secret := false, stripzeros := 1,
            text := [70, 10, 66] }, true, 0 + 1) ∧
       countTitle [70, 10, 66]
          ([{ catnum := 0, places := 14, secret := false, stripzeros := 1,
              text := [70, 10, 65] }].set 0
            { catnum := 0, places := 14, secret := false, stripzeros := 1,
              text := [70, 10, 66] }) = 1) :=
  c3_conflict_resolution (fun _ => ReplyType.yes)
    [{ catnum := 0, places := 14, secret := false, stripzeros := 1, text := [70, 10, 65] }]
    { catnum := 0, places := 14, secret := false, stripzeros := 1, text := [70, 10, 66] }
    0 0 (by decide) (by decide) (by decide)

/-! ## C1: the record-text terminator -/

theorem takeWhile_congr_pred {p q : Nat → Bool} (h : ∀ b, p b = q b) :
    ∀ s : List Nat, s.takeWhile p = s.takeWhile q := by
  intro s
  induction s with
  | nil => rfl
  | cons b s' ih =>
    simp only [List.takeWhile, h b]
    cases q b <;> simp [ih]

theorem takeWhile_take_succ (p : Nat → Bool) :
    ∀ s : List Nat, (s.take ((s.takeWhile p).length + 1)).takeWhile p = s.takeWhile p := by
  intro s
  induction s with
  | nil => rfl
  | cons b s' ih =>
    by_cases hb : p b
    · simp only [List.takeWhile, hb]
      simp only [List.length_cons, List.take, List.takeWhile, hb]
      rw [ih]
    · have hb' : p b = false := by simpa using hb
      simp [List.takeWhile, hb', List.take]

/-- C1 counterexample: the claim says the reader stops at the first 0x0A
byte and excludes it.  At the concrete file [9, 1, 65, 10, 66, 0, 99]
(entry offset 0, record header bytes 9 and 1, text bytes 65 10 66
followed by the 0x00 terminator), the loaded text would then be [65];
in fact LoadDB reads past the 0x0A and stops only at 0x00, returning
[65, 10, 66]. -/
theorem c1_counterexample :
    loadEntryText [9, 1, 65, 10, 66, 0, 99] 0 = [65, 10, 66] ∧
      loadEntryText [9, 1, 65, 10, 66, 0, 99] 0 ≠ [65] := by
  constructor
  · rfl
  · decide

/-- C1 amended: for a record entry, the reader seeks to the entry's
absolute offset, reads the fixed 2-byte record header (places and
stripzeros), then reads the text byte-by-byte until a terminator byte of
value 0x00 is encountered (or the file ends), and the terminator is
excluded from the record's text (it is the C string's NUL). -/
theorem c1_record_text_amended (file : List Nat) (attr off : Nat) :
    (loadEntryRec file attr off).places = file.getD off 0 ∧
    (loadEntryRec file attr off).stripzeros = file.getD (off + 1) 0 ∧
    (loadEntryRec file attr off).text =
      (file.drop (off + 2)).takeWhile (fun b => b != 0) := by
  refine ⟨rfl, rfl, ?_⟩
  show loadEntryText file off = _
  unfold loadEntryText
  simp only []
  have hpq : ∀ b : Nat, decide (0 < b) = (b != 0) := by
    intro b; cases b <;> simp
  rw [takeWhile_congr_pred hpq, Nat.add_comm 1]
  exact takeWhile_take_succ _ _

/-! ## C2: header validation -/

theorem strncmpEq_tag (x t : List Nat) (hx : x.length = 4) (ht : t.length = 4)
    (h0 : 0 ∉ t) : (strncmpEq x t 4 = true ↔ x = t) := by
  match x, t, hx, ht with
  | [a, b, c, d], [t0, t1, t2, t3], _, _ =>
    have g0 : t0 ≠ 0 := fun h => h0 (by simp [h])
    have g1 : t1 ≠ 0 := fun h => h0 (by simp [h])
    have g2 : t2 ≠ 0 := fun h => h0 (by simp [h])
    show (strncmpEq [a, b, c, d] [t0, t1, t2, t3] (3 + 1) = true ↔ _)
    simp only [strncmpEq, List.headD, List.tail]
    split_ifs <;> simp_all

/-- C2: opening a database whose header has type tag "Data", creator tag
"MthP" and big-endian version word 1 succeeds; for any other tag bytes or
version value the open fails with a format error, and LoadDB returns that
format error without reading any record (the record-list phase is never
entered).  The hypotheses say the 72-byte header is present and the app
info block fits in the file, so that a well-tagged file can actually be
opened. -/
theorem c2_header_validation (file : List Nat) (hlen : 72 ≤ file.length)
    (happ : hdrAppInfoID file + 309 ≤ file.length) :
    ((∃ x, openDB file = Except.ok x) ↔
      (hdrType file = MathPadTypeB ∧ hdrCreator file = MathPadCreatorB ∧
        256 * file.getD 34 0 + file.getD 35 0 = 1)) ∧
    (¬(hdrType file = MathPadTypeB ∧ hdrCreator file = MathPadCreatorB ∧
        256 * file.getD 34 0 + file.getD 35 0 = 1) →
      loadDB file = Except.error DBError.formatError) := by
  have hTlen : (hdrType file).length = 4 := by
    simp only [hdrType, List.length_take, List.length_drop]
    omega
  have hClen : (hdrCreator file).length = 4 := by
    simp only [hdrCreator, List.length_take, List.length_drop]
    omega
  have hT := strncmpEq_tag (hdrType file) MathPadTypeB hTlen (by rfl) (by decide)
  have hC := strncmpEq_tag (hdrCreator file) MathPadCreatorB hClen (by rfl) (by decide)
  have hVeq : wordLE (swapWord (hdrVersionBytes file)) =
      256 * file.getD 34 0 + file.getD 35 0 := by
    simp [wordLE, swapWord, hdrVersionBytes, Nat.add_comm]
  have hmplen : ((file.drop (hdrAppInfoID file)).take 309).length = 309 := by
    simp only [List.length_take, List.length_drop]
    omega
  by_cases hvalid : hdrType file = MathPadTypeB ∧ hdrCreator file = MathPadCreatorB ∧
      256 * file.getD 34 0 + file.getD 35 0 = 1
  · obtain ⟨h1, h2, h3⟩ := hvalid
    have hA : strncmpEq (hdrType file) MathPadTypeB 4 = true := hT.mpr h1
    have hB : strncmpEq (hdrCreator file) MathPadCreatorB 4 = true := hC.mpr h2
    have hVb : (wordLE (swapWord (hdrVersionBytes file)) != 1) = false := by
      rw [hVeq, h3]
      rfl
    have hok : openDB file = Except.ok ((file.drop (hdrAppInfoID file)).take 309, 72) := by
      unfold openDB
      rw [if_neg (show ¬file.length < 72 by omega)]
      simp [hA, hB, hVb, hmplen]
    exact ⟨⟨fun _ => ⟨h1, h2, h3⟩, fun _ => ⟨_, hok⟩⟩,
           fun h => absurd ⟨h1, h2, h3⟩ h⟩
  · have herr : openDB file = Except.error DBError.formatError := by
      by_cases hAB : hdrType file = MathPadTypeB ∧ hdrCreator file = MathPadCreatorB
      · have hA : strncmpEq (hdrType file) MathPadTypeB 4 = true := hT.mpr hAB.1
        have hB : strncmpEq (hdrCreator file) MathPadCreatorB 4 = true := hC.mpr hAB.2
        have h3 : ¬(256 * file.getD 34 0 + file.getD 35 0 = 1) := by
          intro h3
          exact hvalid ⟨hAB.1, hAB.2, h3⟩
        have hVb : (wordLE (swapWord (hdrVersionBytes file)) != 1) = true := by
          rw [hVeq]
          simpa using h3
        unfold openDB
        rw [if_neg (show ¬file.length < 72 by omega)]
        simp [hA, hB, hVb]
      · have hABf : (strncmpEq (hdrType file) MathPadTypeB 4 &&
            strncmpEq (hdrCreator file) MathPadCreatorB 4) = false := by
          cases ha : strncmpEq (hdrType file) MathPadTypeB 4 <;>
            cases hb : strncmpEq (hdrCreator file) MathPadCreatorB 4 <;>
            simp_all
        unfold openDB
        rw [if_neg (show ¬file.length < 72 by omega)]
        simp [hABf]
    refine ⟨⟨fun hx => ?_, fun hv => absurd hv hvalid⟩, fun _ => ?_⟩
    · obtain ⟨x, hx⟩ := hx
      rw [herr] at hx
      cases hx
    · simp [loadDB, herr]

set_option maxRecDepth 4000 in
/-- Witness for C2 at the concrete file `c2File`. -/
theorem c2_witness :
    ((∃ x, openDB c2File = Except.ok x) ↔
      (hdrType c2File = MathPadTypeB ∧ hdrCreator c2File = MathPadCreatorB ∧
        256 * c2File.getD 34 0 + c2File.getD 35 0 = 1)) ∧
    (¬(hdrType c2File = MathPadTypeB ∧ hdrCreator c2File = MathPadCreatorB ∧
        256 * c2File.getD 34 0 + c2File.getD 35 0 = 1) →
      loadDB c2File = Except.error DBError.formatError) :=
  c2_header_validation c2File (by decide) (by decide)

theorem firstIdxSat_none (p : List Nat → Bool) :
    ∀ l : List (List Nat), (∀ x ∈ l, p x = false) → firstIdxSat p l = none := by
  intro l
  induction l with
  | nil => intro _; rfl
  | cons lab rest ih =>
    intro h
    have hlab : p lab = false := h lab (by simp)
    simp [firstIdxSat, hlab, ih (fun x hx => h x (by simp [hx]))]

theorem firstIdxSat_lt (p : List Nat → Bool) :
    ∀ (l : List (List Nat)) (j : Nat), firstIdxSat p l = some j → j < l.length := by
  intro l
  induction l with
  | nil => intro j h; simp [firstIdxSat] at h
  | cons lab rest ih =>
    intro j h
    by_cases hlab : p lab
    · simp [firstIdxSat, hlab] at h
      simp only [List.length_cons]
      omega
    · simp [firstIdxSat, hlab] at h
      obtain ⟨i, hi, rfl⟩ := h
      have := ih i hi
      simp only [List.length_cons]
      omega

/-- If some candidate in the next `fuel` increments of the wrapping
counter avoids `uids`, the search loop succeeds with an id not in `uids`
and below 256. -/
theorem nextUniqIDAux_succeeds (uids : List Nat) :
    ∀ (fuel last : Nat), (∃ m, m < fuel ∧ (last + 1 + m) % 256 ∉ uids) →
      ∃ id, nextUniqIDAux uids last fuel = some id ∧ id ∉ uids ∧ id < 256 := by
  intro fuel
  induction fuel with
  | zero => intro last h; obtain ⟨m, hm, _⟩ := h; exact absurd hm (Nat.not_lt_zero m)
  | succ f ih =>
    intro last h
    by_cases hc : ((last + 1) % 256) ∈ uids
    · obtain ⟨m, hm, hnot⟩ := h
      have hm0 : m ≠ 0 := by
        intro h0
        subst h0
        exact hnot (by simpa using hc)
      have step : ∃ m', m' < f ∧ ((last + 1) % 256 + 1 + m') % 256 ∉ uids := by
        refine ⟨m - 1, by omega, ?_⟩
        have heq : ((last + 1) % 256 + 1 + (m - 1)) % 256 = (last + 1 + m) % 256 := by
          omega
        rw [heq]
        exact hnot
      obtain ⟨id, hid, hnotin, hlt⟩ := ih ((last + 1) % 256) step
      refine ⟨id, ?_, hnotin, hlt⟩
      simp only [nextUniqIDAux]
      rw [if_pos (by simpa using hc)]
      exact hid
    · refine ⟨(last + 1) % 256, ?_, hc, Nat.mod_lt _ (by omega)⟩
      simp only [nextUniqIDAux]
      rw [if_neg (by simpa using hc)]

/-- With only 16 stored ids there is always a free byte value among the
256 candidates the search loop can reach (pigeonhole over the residues). -/
theorem exists_free_id (uids : List Nat) (hlen : uids.length = 16) (last : Nat) :
    ∃ m, m < 256 ∧ (last + 1 + m) % 256 ∉ uids := by
  by_contra hall
  push_neg at hall
  have hsub : List.range 256 ⊆ uids := by
    intro v hv
    have hv256 : v < 256 := List.mem_range.mp hv
    have heq : (last + 1 + (v + 256 - (last + 1) % 256) % 256) % 256 = v := by omega
    have hmem := hall ((v + 256 - (last + 1) % 256) % 256) (by omega)
    rw [heq] at hmem
    exact hmem
  have hn : (List.range 256).length ≤ uids.length :=
    List.Subperm.length_le (List.subperm_of_subset (List.nodup_range 256) hsub)
  simp [hlen] at hn

/-! ## C5: unique-id allocation preserves distinctness -/

/-- C5: when the import parser allocates a new category slot `j` for a
name not present in the table, the search loop (increment the counter,
skip ids already present) terminates with an id distinct from the id
stored in every slot, hence distinct from every other slot's id after the
assignment; pairwise distinctness of the occupied slots' ids is preserved. -/
theorem c5_unique_id_alloc (info : AppInfo) (catname : List Nat) (j : Nat)
    (hul : info.uids.length = 16) (hll : info.labels.length = 16)
    (hname : ∀ lab ∈ info.labels, (lab == catname) = false)
    (hfree : firstIdxSat (fun lab => lab.isEmpty) info.labels = some j) :
    nextUniqIDAux info.uids info.lastUniqID 256 = some (allocUniqID info) ∧
    lookupOrAllocate info catname =
      (j, { labels := info.labels.set j catname,
            uids := info.uids.set j (allocUniqID info),
            lastUniqID := allocUniqID info }) ∧
    allocUniqID info ∉ info.uids ∧
    (∀ i, i < 16 → i ≠ j →
      (info.uids.set j (allocUniqID info)).getD i 0 ≠
        (info.uids.set j (allocUniqID info)).getD j 0) ∧
    ((∀ i1 i2, i1 < 16 → i2 < 16 → i1 ≠ i2 →
        (info.labels.getD i1 []).isEmpty = false →
        (info.labels.getD i2 []).isEmpty = false →
        info.uids.getD i1 0 ≠ info.uids.getD i2 0) →
      ∀ i1 i2, i1 < 16 → i2 < 16 → i1 ≠ i2 →
        ((info.labels.set j catname).getD i1 []).isEmpty = false →
        ((info.labels.set j catname).getD i2 []).isEmpty = false →
        (info.uids.set j (allocUniqID info)).getD i1 0 ≠
          (info.uids.set j (allocUniqID info)).getD i2 0) := by
  obtain ⟨id, hid, hnotin, hlt⟩ :=
    nextUniqIDAux_succeeds info.uids 256 info.lastUniqID
      (exists_free_id info.uids hul info.lastUniqID)
  have hjlt : j < 16 := by
    have := firstIdxSat_lt _ info.labels j hfree
    omega
  have hidD : allocUniqID info = id := by
    simp [allocUniqID, hid]
  have hgj : (info.uids.set j (allocUniqID info)).getD j 0 = id := by
    rw [hidD]
    exact getD_set_self info.uids j id 0 (by omega)
  have hgo : ∀ i, i ≠ j → (info.uids.set j (allocUniqID info)).getD i 0 =
      info.uids.getD i 0 := by
    intro i hi
    exact getD_set_other info.uids j i _ 0 (fun h => hi h.symm)
  have hmemne : ∀ i, i < 16 → info.uids.getD i 0 ≠ id := by
    intro i hi h
    exact hnotin (h ▸ getD_mem info.uids i 0 (by omega))
  refine ⟨hidD ▸ hid, ?_, hidD ▸ hnotin, ?_, ?_⟩
  · unfold lookupOrAllocate
    rw [firstIdxSat_none _ info.labels hname, hfree, hid, hidD]
  · intro i hi hij
    rw [hgj, hgo i hij]
    exact hmemne i hi
  · intro hpre i1 i2 h1 h2 hne hocc1 hocc2
    by_cases e1 : i1 = j
    · subst e1
      have hi2 : i2 ≠ i1 := fun h => hne h.symm
      rw [hgj, hgo i2 hi2]
      exact (hmemne i2 h2).symm
    · by_cases e2 : i2 = j
      · subst e2
        rw [hgo i1 e1, hgj]
        exact hmemne i1 h1
      · rw [hgo i1 e1, hgo i2 e2]
        have hl1 : (info.labels.getD i1 []).isEmpty = false := by
          rw [← getD_set_other info.labels j i1 catname [] (fun h => e1 h.symm)]
          exact hocc1
        have hl2 : (info.labels.getD i2 []).isEmpty = false := by
          rw [← getD_set_other info.labels j i2 catname [] (fun h => e2 h.symm)]
          exact hocc2
        exact hpre i1 i2 h1 h2 hne hl1 hl2

/-- Witness for C5: allocating "Work" in `c5Info` takes slot 1 and id 1. -/
theorem c5_witness :
    nextUniqIDAux c5Info.uids c5Info.lastUniqID 256 = some (allocUniqID c5Info) ∧
    lookupOrAllocate c5Info [87, 111, 114, 107] =
      (1, { labels := c5Info.labels.set 1 [87, 111, 114, 107],
            uids := c5Info.uids.set 1 (allocUniqID c5Info),
            lastUniqID := allocUniqID c5Info }) ∧
    allocUniqID c5Info ∉ c5Info.uids ∧
    (∀ i, i < 16 → i ≠ 1 →
      (c5Info.uids.set 1 (allocUniqID c5Info)).getD i 0 ≠
        (c5Info.uids.set 1 (allocUniqID c5Info)).getD 1 0) ∧
    ((∀ i1 i2, i1 < 16 → i2 < 16 → i1 ≠ i2 →
        (c5Info.labels.getD i1 []).isEmpty = false →
        (c5Info.labels.getD i2 []).isEmpty = false →
        c5Info.uids.getD i1 0 ≠ c5Info.uids.getD i2 0) →
      ∀ i1 i2, i1 < 16 → i2 < 16 → i1 ≠ i2 →
        ((c5Info.labels.set 1 [87, 111, 114, 107]).getD i1 []).isEmpty = false →
        ((c5Info.labels.set 1 [87, 111, 114, 107]).getD i2 []).isEmpty = false →
        (c5Info.uids.set 1 (allocUniqID c5Info)).getD i1 0 ≠
          (c5Info.uids.set 1 (allocUniqID c5Info)).getD i2 0) :=
  c5_unique_id_alloc c5Info [87, 111, 114, 107] 1
    (by decide) (by decide) (by decide) (by decide)

/-! ## C6: full category table falls back to Unfiled -/

/-- C6: when every one of the 16 category slots is occupied and the name
being imported matches none of them, lookup-or-allocate yields the Unfiled
index 0 and leaves the table completely unchanged; no error is raised
(the function is total). -/
theorem c6_full_table_unfiled (info : AppInfo) (catname : List Nat)
    (_hll : info.labels.length = 16)
    (hocc : ∀ lab ∈ info.labels, lab.isEmpty = false)
    (hname : ∀ lab ∈ info.labels, (lab == catname) = false) :
    lookupOrAllocate info catname = (0, info) := by
  unfold lookupOrAllocate
  rw [firstIdxSat_none _ info.labels hname, firstIdxSat_none _ info.labels hocc]

/-- Witness for C6: importing name "Zed" into the full table `c6Info`
returns Unfiled and the unchanged table. -/
theorem c6_witness : lookupOrAllocate c6Info [90, 101, 100] = (0, c6Info) :=
  c6_full_table_unfiled c6Info [90, 101, 100] (by decide) (by decide) (by decide)

theorem takeWhile_all_append (p : Nat → Bool) :
    ∀ (l r : List Nat), (∀ b ∈ l, p b = true) →
      (l ++ r).takeWhile p = l ++ r.takeWhile p := by
  intro l
  induction l with
  | nil => intro r _; rfl
  | cons a t ih =>
    intro r h
    have ha : p a = true := h a (by simp)
    simp only [List.cons_append, List.takeWhile, ha, List.append_eq]
    rw [ih r (fun b hb => h b (by simp [hb]))]

theorem dropWhile_all_append (p : Nat → Bool) :
    ∀ (l r : List Nat), (∀ b ∈ l, p b = true) →
      (l ++ r).dropWhile p = r.dropWhile p := by
  intro l
  induction l with
  | nil => intro r _; rfl
  | cons a t ih =>
    intro r h
    have ha : p a = true := h a (by simp)
    simp only [List.cons_append, List.dropWhile, ha]
    exact ih r (fun b hb => h b (by simp [hb]))

/-! ## C10: category names are truncated to 15 bytes -/

/-- C10: for a category line whose quoted name has 15 or more bytes, the
parser truncates the name to its first 15 bytes before using it, and the
lookup/allocation of the line's category is performed on that truncated
name. -/
theorem c10_category_truncation (info : AppInfo) (name rest : List Nat)
    (hq : (34 : Nat) ∉ name) (hlen : 15 ≤ name.length) :
    parseCatName (catLineMark ++ (name ++ 34 :: rest)) = name.take 15 ∧
    categoryOf info (catLineMark ++ (name ++ 34 :: rest)) =
      lookupOrAllocate info (name.take 15) := by
  have hparse : parseCatName (catLineMark ++ (name ++ 34 :: rest)) = name.take 15 := by
    unfold parseCatName
    have hdrop : ((catLineMark ++ (name ++ 34 :: rest)).dropWhile
        (fun b => b != 34)).tail = name ++ 34 :: rest := by
      have : catLineMark ++ (name ++ 34 :: rest) =
          [67, 97, 116, 101, 103, 111, 114, 121, 32, 61, 32] ++
            (34 :: (name ++ 34 :: rest)) := by
        simp [catLineMark]
      rw [this, dropWhile_all_append _ _ _ (by decide)]
      simp [List.dropWhile]
    have htake : (name ++ 34 :: rest).takeWhile (fun b => b != 34) = name := by
      rw [takeWhile_all_append _ _ _ (fun b hb => by
        simp only [bne_iff_ne, ne_eq]
        exact fun h => hq (h ▸ hb))]
      simp [List.takeWhile]
    rw [hdrop]
    simp only [htake]
    by_cases h16 : 16 ≤ name.length
    · rw [if_pos h16]
    · rw [if_neg h16]
      have h15 : name.length = 15 := by omega
      rw [h15]
  exact ⟨hparse, by unfold categoryOf; rw [hparse]⟩

/-- Witness for C10 with a concrete 16-byte name "ABCDEFGHIJKLMNOP". -/
theorem c10_witness :
    parseCatName (catLineMark ++
        ([65, 66, 67, 68, 69, 70, 71, 72, 73, 74, 75, 76, 77, 78, 79, 80] ++
          34 :: [59, 32])) =
      [65, 66, 67, 68, 69, 70, 71, 72, 73, 74, 75, 76, 77, 78, 79, 80].take 15 ∧
    categoryOf c5Info (catLineMark ++
        ([65, 66, 67, 68, 69, 70, 71, 72, 73, 74, 75, 76, 77, 78, 79, 80] ++
          34 :: [59, 32])) =
      lookupOrAllocate c5Info
        ([65, 66, 67, 68, 69, 70, 71, 72, 73, 74, 75, 76, 77, 78, 79, 80].take 15) :=
  c10_category_truncation c5Info
    [65, 66, 67, 68, 69, 70, 71, 72, 73, 74, 75, 76, 77, 78, 79, 80] [59, 32]
    (by decide) (by decide)

/-! ## C7: layout written by SaveDB -/

theorem patchHdr_length (hdr : List Nat) (now appid : Nat) (h : hdr.length = 72) :
    (patchHdr hdr now appid).length = 72 := by
  simp [patchHdr, beDWordBytes, List.length_take, List.length_drop, h]

theorem writeRecords_uid :
    ∀ (rs : List Rec) (pos : Nat) (e : EntryOut), e ∈ (writeRecords rs pos).1 →
      e.uniqueID = [0, 0, 0] := by
  intro rs
  induction rs with
  | nil => intro pos e h; simp [writeRecords] at h
  | cons r rest ih =>
    intro pos e h
    simp only [writeRecords, List.mem_cons] at h
    cases h with
    | inl h => rw [h]
    | inr h => exact ih _ e h

theorem writeRecords_length :
    ∀ (rs : List Rec) (pos : Nat), (writeRecords rs pos).1.length = rs.length := by
  intro rs
  induction rs with
  | nil => intro pos; rfl
  | cons r rest ih =>
    intro pos
    simp [writeRecords, ih]

theorem entries_flatten_length :
    ∀ (rs : List Rec) (pos : Nat),
      (((writeRecords rs pos).1.map entryBytes).flatten).length = 8 * rs.length := by
  intro rs
  induction rs with
  | nil => intro pos; rfl
  | cons r rest ih =>
    intro pos
    simp only [writeRecords, List.map_cons, List.flatten_cons, List.length_append, ih]
    simp [entryBytes, beDWordBytes]
    ring

theorem drop_append_length {α : Type} (l₁ l₂ : List α) (k : Nat) :
    (l₁ ++ l₂).drop (l₁.length + k) = l₂.drop k := by
  simp [List.drop_append]

theorem sumLen_cons (r : Rec) (rs : List Rec) :
    sumLen (r :: rs) = (recordBytes r).length + sumLen rs := by
  simp [sumLen]

/-- The record-writing loop: each entry holds the position of its record
within the stream of record bytes, the packed attributes and zero ids. -/
theorem writeRecords_spec :
    ∀ (rs : List Rec) (pos i : Nat), i < rs.length →
      ((writeRecords rs pos).1.getD i defEntry =
        { offset := pos + sumLen (rs.take i),
          attributes := attrOf (rs.getD i defRec), uniqueID := [0, 0, 0] }) ∧
      (((writeRecords rs pos).2.drop (sumLen (rs.take i))).take
          (recordBytes (rs.getD i defRec)).length = recordBytes (rs.getD i defRec)) := by
  intro rs
  induction rs with
  | nil => intro pos i h; simp at h
  | cons r rest ih =>
    intro pos i h
    cases i with
    | zero =>
      constructor
      · simp [writeRecords, sumLen]
      · simp only [writeRecords, List.getD_cons_zero, List.take_zero, sumLen,
          List.map_nil, List.sum_nil, List.drop_zero]
        exact List.take_left _ _
    | succ i' =>
      have hi' : i' < rest.length := by simpa using h
      have hrec := ih (pos + (recordBytes r).length) i' hi'
      simp only [writeRecords, List.getD_cons_succ, List.take_succ_cons, sumLen_cons]
      constructor
      · rw [hrec.1, Nat.add_assoc]
      · rw [drop_append_length]
        exact hrec.2

/-- C7: SaveDB writes exactly one record-list block: its next-list-offset
field is 0 and its entry count is the number of records in the store; in
the patched entry array, each entry's offset is the file position where
the corresponding record was written (the file holds that record's header
bytes, text and terminator at that offset), its attribute byte is the
record's category index with the secrecy bit or-ed in, and its three
unique-ID bytes are zero. -/
theorem c7_writer_layout (hdr mpinfo : List Nat) (records : List Rec) (now : Nat)
    (hh : hdr.length = 72) (hm : mpinfo.length = 309)
    (hn : records.length < 65536) :
    (saveDB hdr mpinfo records now).nextRecordListID = 0 ∧
    (saveDB hdr mpinfo records now).numRecords = records.length ∧
    (saveDB hdr mpinfo records now).entries.length = records.length ∧
    (∀ i, i < records.length →
      ((saveDB hdr mpinfo records now).entries.getD i defEntry).offset =
        72 + 6 + 8 * records.length + 309 + sumLen (records.take i) ∧
      (((saveDB hdr mpinfo records now).file.drop
            (((saveDB hdr mpinfo records now).entries.getD i defEntry).offset)).take
          (recordBytes (records.getD i defRec)).length =
        recordBytes (records.getD i defRec)) ∧
      ((saveDB hdr mpinfo records now).entries.getD i defEntry).attributes =
        Nat.lor (records.getD i defRec).catnum
          (if (records.getD i defRec).secret then 16 else 0) ∧
      ((saveDB hdr mpinfo records now).entries.getD i defEntry).uniqueID = [0, 0, 0]) := by
  refine ⟨rfl, ?_, ?_, ?_⟩
  · show records.length % 65536 = records.length
    omega
  · show (writeRecords records (72 + 6 + 8 * records.length + 309)).1.length =
      records.length
    exact writeRecords_length records _
  intro i hi
  have hspec := writeRecords_spec records (72 + 6 + 8 * records.length + 309) i hi
  have hent : (saveDB hdr mpinfo records now).entries.getD i defEntry =
      { offset := 72 + 6 + 8 * records.length + 309 + sumLen (records.take i),
        attributes := attrOf (records.getD i defRec), uniqueID := [0, 0, 0] } := by
    show (writeRecords records (72 + 6 + 8 * records.length + 309)).1.getD i defEntry = _
    exact hspec.1
  have hfile : (saveDB hdr mpinfo records now).file =
      (patchHdr hdr now (72 + 6 + 8 * records.length) ++
        (beDWordBytes 0 ++ beWordBytes (records.length % 65536)) ++
        ((writeRecords records (72 + 6 + 8 * records.length + 309)).1.map
          entryBytes).flatten ++ mpinfo) ++
        (writeRecords records (72 + 6 + 8 * records.length + 309)).2 := by
    simp [saveDB, List.append_assoc]
  have hplen : (patchHdr hdr now (72 + 6 + 8 * records.length) ++
        (beDWordBytes 0 ++ beWordBytes (records.length % 65536)) ++
        ((writeRecords records (72 + 6 + 8 * records.length + 309)).1.map
          entryBytes).flatten ++ mpinfo).length =
      72 + 6 + 8 * records.length + 309 := by
    simp only [List.length_append, patchHdr_length hdr now _ hh, hm,
      entries_flatten_length, beDWordBytes, beWordBytes]
    simp only [List.length_cons, List.length_nil]
  refine ⟨by rw [hent], ?_, by rw [hent]; rfl, by rw [hent]⟩
  rw [hent, hfile]
  rw [show 72 + 6 + 8 * records.length + 309 + sumLen (records.take i) =
      (patchHdr hdr now (72 + 6 + 8 * records.length) ++
        (beDWordBytes 0 ++ beWordBytes (records.length % 65536)) ++
        ((writeRecords records (72 + 6 + 8 * records.length + 309)).1.map
          entryBytes).flatten ++ mpinfo).length + sumLen (records.take i) from by
    rw [hplen]]
  rw [drop_append_length]
  exact hspec.2

set_option maxRecDepth 4000 in
/-- Witness for C7 at the concrete store `c7Recs` and entry index 0. -/
theorem c7_witness :
    (saveDB c7Hdr c7Mp c7Recs 5).nextRecordListID = 0 ∧
    (saveDB c7Hdr c7Mp c7Recs 5).numRecords = c7Recs.length ∧
    (saveDB c7Hdr c7Mp c7Recs 5).entries.length = c7Recs.length ∧
    (((saveDB c7Hdr c7Mp c7Recs 5).entries.getD 0 defEntry).offset =
        72 + 6 + 8 * c7Recs.length + 309 + sumLen (c7Recs.take 0) ∧
      (((saveDB c7Hdr c7Mp c7Recs 5).file.drop
            (((saveDB c7Hdr c7Mp c7Recs 5).entries.getD 0 defEntry).offset)).take
          (recordBytes (c7Recs.getD 0 defRec)).length =
        recordBytes (c7Recs.getD 0 defRec)) ∧
      ((saveDB c7Hdr c7Mp c7Recs 5).entries.getD 0 defEntry).attributes =
        Nat.lor (c7Recs.getD 0 defRec).catnum
          (if (c7Recs.getD 0 defRec).secret then 16 else 0) ∧
      ((saveDB c7Hdr c7Mp c7Recs 5).entries.getD 0 defEntry).uniqueID = [0, 0, 0]) := by
  have h := c7_writer_layout c7Hdr c7Mp c7Recs 5 (by decide) (by decide) (by decide)
  exact ⟨h.1, h.2.1, h.2.2.1, h.2.2.2 0 (by decide)⟩

/-! ## Lemmas for the export/import round trip (C8) -/

theorem fgetsTake_line :
    ∀ (c : List Nat) (n : Nat) (rest : List Nat), c.length < n →
      (∀ b ∈ c, (b == 10) = false) →
      fgetsTake n (c ++ 10 :: rest) = (c ++ [10], rest) := by
  intro c
  induction c with
  | nil =>
    intro n rest hn _
    match n, hn with
    | m + 1, _ => simp [fgetsTake]
  | cons b c' ih =>
    intro n rest hn hb
    match n, hn with
    | m + 1, hn =>
      have hb10 : (b == 10) = false := hb b (by simp)
      simp only [List.cons_append, fgetsTake, hb10, List.append_eq]
      rw [if_neg (by simp [hb10])]
      rw [ih m rest (by simpa using hn) (fun x hx => hb x (by simp [hx]))]

theorem take27_ne_sep (c : List Nat) (_h10 : ∀ b ∈ c, (b == 10) = false)
    (hsep : c.take 27 ≠ List.replicate 27 126) :
    (c ++ [10]).take 27 ≠ List.replicate 27 126 := by
  rw [List.take_append_eq_append_take]
  by_cases hlen : 27 ≤ c.length
  · rw [show 27 - c.length = 0 by omega]
    simpa using hsep
  · intro h
    have h10' : (10 : Nat) ∈ c.take 27 ++ [10].take (27 - c.length) := by
      have : [10].take (27 - c.length) = [10] := by
        rw [show 27 - c.length = (26 - c.length) + 1 by omega]
        simp
      simp [this]
    rw [h] at h10'
    have := List.eq_of_mem_replicate h10'
    omega

theorem readLine_line (c rest : List Nat)
    (hbytes : ∀ b ∈ c, b ≠ 0 ∧ b ≠ 10 ∧ b ≠ 13)
    (hlen : c.length ≤ 254) (hsep : c.take 27 ≠ List.replicate 27 126) :
    readLine (c ++ 10 :: rest) = LineRes.lineR (c ++ [10]) rest := by
  have hne : (c ++ 10 :: rest).isEmpty = false := by
    cases c <;> rfl
  have h10 : ∀ b ∈ c, (b == 10) = false := by
    intro b hb
    simpa using (hbytes b hb).2.1
  unfold readLine
  rw [hne]
  simp only [Bool.false_eq_true, if_false]
  rw [fgetsTake_line c 255 rest (by omega) h10]
  simp only []
  rw [if_neg (by simpa using take27_ne_sep c h10 hsep)]
  congr 1
  rw [takeWhile_all_append _ _ _ (fun b hb => by
    obtain ⟨h0, h1, h2⟩ := hbytes b hb
    simp [h0, h1, h2])]
  simp [List.takeWhile]

theorem readLine_sep (rest : List Nat) :
    readLine (sepLineOut ++ rest) = LineRes.sepR rest := by
  have hs : sepLineOut ++ rest = List.replicate 27 126 ++ 10 :: rest := by
    simp [sepLineOut]
  rw [hs]
  have hne : (List.replicate 27 126 ++ 10 :: rest).isEmpty = false := by rfl
  unfold readLine
  rw [hne]
  simp only [Bool.false_eq_true, if_false]
  rw [fgetsTake_line (List.replicate 27 126) 255 rest (by simp) (by decide)]
  simp only []
  have htake : (List.replicate 27 126 ++ [10]).take 27 = List.replicate (27 : Nat) 126 := by
    rw [List.take_append_eq_append_take]
    simp
  rw [if_pos (by simp [htake])]

theorem splitNL_no10 :
    ∀ T : List Nat, (∀ b ∈ T, (b == 10) = false) → splitNL T = [T] := by
  intro T
  induction T with
  | nil => intro _; rfl
  | cons b r ih =>
    intro h
    have hb : (b == 10) = false := h b (by simp)
    simp only [splitNL, hb]
    rw [ih (fun x hx => h x (by simp [hx]))]
    simp

theorem splitNL_cons10 :
    ∀ (c T' : List Nat), (∀ b ∈ c, (b == 10) = false) →
      splitNL (c ++ 10 :: T') = c :: splitNL T' := by
  intro c
  induction c with
  | nil => intro T' _; simp [splitNL]
  | cons b c' ih =>
    intro T' h
    have hb : (b == 10) = false := h b (by simp)
    simp only [List.cons_append, splitNL, hb, List.append_eq]
    rw [ih T' (fun x hx => h x (by simp [hx]))]
    simp

theorem dropWhile_head_not (p : Nat → Bool) :
    ∀ l : List Nat, l.dropWhile p = [] ∨
      ∃ b r, l.dropWhile p = b :: r ∧ p b = false := by
  intro l
  induction l with
  | nil => exact Or.inl rfl
  | cons b r ih =>
    by_cases hb : p b
    · simpa [List.dropWhile, hb] using ih
    · exact Or.inr ⟨b, r, by simp [List.dropWhile, hb], by simpa using hb⟩

theorem mem_takeWhile_sat (p : Nat → Bool) :
    ∀ (l : List Nat) (b : Nat), b ∈ l.takeWhile p → p b = true := by
  intro l
  induction l with
  | nil => intro b h; cases h
  | cons a r ih =>
    intro b h
    by_cases ha : p a
    · simp only [List.takeWhile, ha] at h
      rcases List.mem_cons.mp h with hh | hh
      · rwa [hh]
      · exact ih b hh
    · have ha' : p a = false := by simpa using ha
      simp [List.takeWhile, ha'] at h

theorem mem_of_takeWhile (p : Nat → Bool) :
    ∀ (l : List Nat) (b : Nat), b ∈ l.takeWhile p → b ∈ l := by
  intro l
  induction l with
  | nil => intro b h; cases h
  | cons a r ih =>
    intro b h
    by_cases ha : p a
    · simp only [List.takeWhile, ha] at h
      rcases List.mem_cons.mp h with hh | hh
      · simp [hh]
      · simp [ih b hh]
    · have ha' : p a = false := by simpa using ha
      simp [List.takeWhile, ha'] at h

/-- Decomposition facts a good text yields for its first line. -/
theorem goodTextB_head (T : List Nat) (h : goodTextB T = true) :
    (∀ b ∈ T.takeWhile (fun x => x != 10), b ≠ 0 ∧ b ≠ 10 ∧ b ≠ 13) ∧
    (T.takeWhile (fun x => x != 10)).length ≤ 254 ∧
    (T.takeWhile (fun x => x != 10)).take 27 ≠ List.replicate 27 126 := by
  simp only [goodTextB, Bool.and_eq_true, List.all_eq_true] at h
  obtain ⟨hbytes, hchunks⟩ := h
  have hmem : T.takeWhile (fun x => x != 10) ∈ splitNL T := by
    rcases dropWhile_head_not (fun x => x != 10) T with hd | ⟨b, r, hd, hb⟩
    · have : T = T.takeWhile (fun x => x != 10) := by
        conv_lhs => rw [← List.takeWhile_append_dropWhile (p := fun x => x != 10) (l := T)]
        rw [hd, List.append_nil]
      rw [splitNL_no10 T (by
        intro x hx
        have := mem_takeWhile_sat _ T x (this ▸ hx)
        simpa using this)]
      simp [← this]
    · have hb10 : b = 10 := by simpa using hb
      have hT : T = T.takeWhile (fun x => x != 10) ++ 10 :: r := by
        conv_lhs => rw [← List.takeWhile_append_dropWhile (p := fun x => x != 10) (l := T)]
        rw [hd, hb10]
      have hsp : splitNL T = (T.takeWhile (fun x => x != 10)) :: splitNL r := by
        conv_lhs => rw [hT]
        exact splitNL_cons10 _ r (fun x hx => by simpa using mem_takeWhile_sat _ T x hx)
      rw [hsp]
      simp
  have hchunk := hchunks _ hmem
  simp only [Bool.and_eq_true, decide_eq_true_eq, bne_iff_ne, ne_eq] at hchunk
  refine ⟨?_, hchunk.1, hchunk.2⟩
  intro b hb
  have hmem' : b ∈ T := mem_of_takeWhile _ T b hb
  have h1 := hbytes b hmem'
  have h2 := mem_takeWhile_sat _ T b hb
  simp only [Bool.and_eq_true, bne_iff_ne, ne_eq] at h1 h2
  exact ⟨h1.1, h2, h1.2⟩

/-- A good text's tail after its first line terminator is still good. -/
theorem goodTextB_tail (c T' : List Nat) (hc : ∀ b ∈ c, (b == 10) = false)
    (h : goodTextB (c ++ 10 :: T') = true) : goodTextB T' = true := by
  simp only [goodTextB, Bool.and_eq_true, List.all_eq_true] at h ⊢
  obtain ⟨hbytes, hchunks⟩ := h
  rw [splitNL_cons10 c T' hc] at hchunks
  constructor
  · intro b hb
    exact hbytes b (by simp [hb])
  · intro ch hch
    exact hchunks ch (by simp [hch])

theorem readText_last (c : List Nat)
    (hbytes : ∀ b ∈ c, b ≠ 0 ∧ b ≠ 10 ∧ b ≠ 13) (hlen : c.length ≤ 254)
    (hsep : c.take 27 ≠ List.replicate 27 126) :
    ∀ (f : Nat) (acc rest : List Nat), 2 ≤ f →
      readTextF f acc (c ++ 10 :: (sepLineOut ++ rest)) = (acc ++ (c ++ [10]), rest) := by
  intro f acc rest hf
  obtain ⟨f', rfl⟩ : ∃ f', f = f' + 1 := ⟨f - 1, by omega⟩
  simp only [readTextF]
  rw [readLine_line c _ hbytes hlen hsep]
  obtain ⟨f'', rfl⟩ : ∃ f'', f' = f'' + 1 := ⟨f' - 1, by omega⟩
  simp only [readTextF]
  rw [readLine_sep rest]

theorem readText_spec :
    ∀ (n : Nat) (T : List Nat), T.length ≤ n → goodTextB T = true →
      ∀ (f : Nat) (acc rest : List Nat), T.length + 29 ≤ f →
        readTextF f acc (T ++ 10 :: (sepLineOut ++ rest)) = (acc ++ (T ++ [10]), rest) := by
  intro n
  induction n with
  | zero =>
    intro T hT hg f acc rest hf
    have hnil : T = [] := List.length_eq_zero.mp (by omega)
    subst hnil
    exact readText_last [] (by intro b h; cases h) (by simp) (by simp) f acc rest (by omega)
  | succ n ih =>
    intro T hT hg f acc rest hf
    obtain ⟨hhb, hhl, hhs⟩ := goodTextB_head T hg
    rcases dropWhile_head_not (fun x => x != 10) T with hd | ⟨b, r, hd, hb⟩
    · have hTeq : T = T.takeWhile (fun x => x != 10) := by
        conv_lhs => rw [← List.takeWhile_append_dropWhile (p := fun x => x != 10) (l := T)]
        rw [hd, List.append_nil]
      rw [← hTeq] at hhb hhl hhs
      exact readText_last T hhb hhl hhs f acc rest (by omega)
    · have hb10 : b = 10 := by simpa using hb
      subst hb10
      have hTeq : T = T.takeWhile (fun x => x != 10) ++ 10 :: r := by
        conv_lhs => rw [← List.takeWhile_append_dropWhile (p := fun x => x != 10) (l := T)]
        rw [hd]
      have hlen : T.length = (T.takeWhile (fun x => x != 10)).length + 1 + r.length := by
        conv_lhs => rw [hTeq]
        simp
        omega
      obtain ⟨f', rfl⟩ : ∃ f', f = f' + 1 := ⟨f - 1, by omega⟩
      have hstream : T ++ 10 :: (sepLineOut ++ rest) =
          T.takeWhile (fun x => x != 10) ++
            10 :: (r ++ 10 :: (sepLineOut ++ rest)) := by
        conv_lhs => rw [hTeq]
        simp
      rw [hstream]
      simp only [readTextF]
      rw [readLine_line _ _ hhb hhl hhs]
      show readTextF f' (acc ++ (List.takeWhile (fun x => x != 10) T ++ [10]))
          (r ++ 10 :: (sepLineOut ++ rest)) = _
      have hgr : goodTextB r = true :=
        goodTextB_tail _ r (fun x hx => by simpa using mem_takeWhile_sat _ T x hx)
          (hTeq ▸ hg)
      rw [ih r (by omega) hgr f' (acc ++ (T.takeWhile (fun x => x != 10) ++ [10])) rest
        (by omega)]
      conv_rhs => rw [hTeq]
      simp

theorem decDigitsF_congr :
    ∀ (f : Nat) (n g : Nat), n < f → n < g → decDigitsF f n = decDigitsF g n := by
  intro f
  induction f with
  | zero => intro n g hf; omega
  | succ f ih =>
    intro n g hf hg
    obtain ⟨g', rfl⟩ : ∃ g', g = g' + 1 := ⟨g - 1, by omega⟩
    simp only [decDigitsF]
    by_cases h10 : n < 10
    · simp [h10]
    · rw [if_neg h10, if_neg h10, ih (n / 10) f (by omega) (by omega),
        ih (n / 10) g' (by omega) (by omega)]

theorem decDigits_lt10 (n : Nat) (h : n < 10) : decDigits n = [48 + n] := by
  unfold decDigits
  simp [decDigitsF, h]

theorem decDigits_ge10 (n : Nat) (h : 10 ≤ n) :
    decDigits n = decDigits (n / 10) ++ [48 + n % 10] := by
  have h1 : decDigits n = decDigitsF n (n / 10) ++ [48 + n % 10] := by
    show decDigitsF (n + 1) n = _
    simp only [decDigitsF]
    rw [if_neg (by omega)]
  rw [h1, decDigitsF_congr n (n / 10) (n / 10 + 1) (by omega) (by omega)]
  rfl

theorem decDigits_digits :
    ∀ (n b : Nat), b ∈ decDigits n → 48 ≤ b ∧ b ≤ 57 := by
  intro n
  induction n using Nat.strong_induction_on with
  | _ n ih =>
    intro b hb
    by_cases h : n < 10
    · rw [decDigits_lt10 n h] at hb
      simp at hb
      omega
    · rw [decDigits_ge10 n (by omega)] at hb
      rcases List.mem_append.mp hb with h1 | h1
      · exact ih (n / 10) (by omega) b h1
      · simp at h1
        omega

theorem decDigits_len_le (n : Nat) (h : n < 1000) : (decDigits n).length ≤ 3 := by
  by_cases h1 : n < 10
  · rw [decDigits_lt10 n h1]
    simp
  · rw [decDigits_ge10 n (by omega)]
    by_cases h2 : n / 10 < 10
    · rw [decDigits_lt10 _ h2]
      simp
    · rw [decDigits_ge10 _ (by omega), decDigits_lt10 (n / 10 / 10) (by omega)]
      simp

theorem decDigits_ne_nil (n : Nat) : decDigits n ≠ [] := by
  by_cases h : n < 10
  · rw [decDigits_lt10 n h]
    simp
  · rw [decDigits_ge10 n (by omega)]
    simp

theorem digsVal_append_digits :
    ∀ (n : Nat), ∀ (acc : Nat) (rest : List Nat),
      digsVal (decDigits n ++ rest) acc =
        digsVal rest (acc * 10 ^ (decDigits n).length + n) := by
  intro n
  induction n using Nat.strong_induction_on with
  | _ n ih =>
    intro acc rest
    by_cases h : n < 10
    · rw [decDigits_lt10 n h]
      simp only [List.cons_append, List.nil_append, digsVal, List.length_cons,
        List.length_nil]
      rw [if_pos (by simp; omega)]
      congr 1
      have h48 : 48 + n - 48 = n := by omega
      rw [h48, pow_one]
    · rw [decDigits_ge10 n (by omega)]
      rw [List.append_assoc]
      rw [ih (n / 10) (by omega) acc ([48 + n % 10] ++ rest)]
      simp only [List.cons_append, List.nil_append, digsVal]
      rw [if_pos (by simp; omega)]
      have hlen : ((decDigits (n / 10)) ++ [48 + n % 10]).length =
          (decDigits (n / 10)).length + 1 := by simp
      rw [hlen]
      congr 1
      have : 48 + n % 10 - 48 = n % 10 := by omega
      rw [this]
      ring_nf
      omega

theorem atoiM_space_digits (n : Nat) (rest : List Nat)
    (hrest : rest.headD 0 < 48 ∨ 57 < rest.headD 0) :
    atoiM (32 :: (decDigits n ++ rest)) = (n : Int) := by
  obtain ⟨d, tl, hdd⟩ : ∃ d tl, decDigits n = d :: tl := by
    cases hd : decDigits n with
    | nil => exact absurd hd (decDigits_ne_nil n)
    | cons d tl => exact ⟨d, tl, rfl⟩
  have hdig : 48 ≤ d ∧ d ≤ 57 := decDigits_digits n d (by rw [hdd]; simp)
  have hdrop : (32 :: (decDigits n ++ rest)).dropWhile isSpaceB =
      decDigits n ++ rest := by
    rw [List.dropWhile_cons, if_pos (by decide), hdd, List.cons_append,
      List.dropWhile_cons, if_neg (by simp [isSpaceB]; omega)]
  unfold atoiM
  rw [hdrop, hdd]
  show (if d == 45 then -(digsVal (tl ++ rest) 0 : Int)
    else if d == 43 then (digsVal (tl ++ rest) 0 : Int)
    else (digsVal (d :: (tl ++ rest)) 0 : Int)) = (n : Int)
  rw [if_neg (by simp; omega), if_neg (by simp; omega)]
  rw [← List.cons_append, ← hdd]
  rw [digsVal_append_digits n 0 rest]
  simp only [Nat.zero_mul, Nat.zero_add]
  congr 1
  cases rest with
  | nil => rfl
  | cons b r' =>
    simp only [List.headD_cons] at hrest
    simp only [digsVal]
    rw [if_neg (by simp; omega)]

theorem dropWhile_prefix_stop (p : Nat → Bool) (pre : List Nat) (b : Nat) (X : List Nat)
    (hpre : ∀ x ∈ pre, p x = true) (hb : p b = false) :
    (pre ++ b :: X).dropWhile p = b :: X := by
  rw [dropWhile_all_append p pre (b :: X) hpre, List.dropWhile_cons, if_neg (by simp [hb])]

theorem takeWhile_prefix_stop (p : Nat → Bool) (pre : List Nat) (b : Nat) (X : List Nat)
    (hpre : ∀ x ∈ pre, p x = true) (hb : p b = false) :
    (pre ++ b :: X).takeWhile p = pre := by
  rw [takeWhile_all_append p pre (b :: X) hpre, List.takeWhile_cons, if_neg (by simp [hb])]
  simp

theorem byteOfInt_natCast (n : Nat) : byteOfInt (n : Int) = n % 256 := by
  unfold byteOfInt
  omega

theorem parseCatName_line (lab X : List Nat)
    (hlab34 : ∀ b ∈ lab, (b != 34) = true) (hlen : lab.length ≤ 15) :
    parseCatName (catLineMark ++ (lab ++ (34 :: X))) = lab := by
  unfold parseCatName
  have h1 : (catLineMark ++ (lab ++ (34 :: X))).dropWhile (fun b => b != 34) =
      34 :: (lab ++ (34 :: X)) := by
    have he : catLineMark ++ (lab ++ (34 :: X)) =
        [67, 97, 116, 101, 103, 111, 114, 121, 32, 61, 32] ++
          (34 :: (lab ++ (34 :: X))) := by
      simp [catLineMark]
    rw [he]
    exact dropWhile_prefix_stop _ _ _ _ (by decide) (by decide)
  rw [h1]
  simp only [List.tail_cons]
  rw [takeWhile_prefix_stop _ lab 34 X hlab34 (by decide)]
  rw [if_neg (by omega)]
  exact List.take_length lab

theorem parseSecretVal_line (lab : List Nat) (sv : Nat)
    (hlab34 : ∀ b ∈ lab, (b != 34) = true) :
    parseSecretVal (catLineMark ++ (lab ++ (secretMid ++ (decDigits sv ++ [10])))) =
      ((sv : Int) != 0) := by
  unfold parseSecretVal
  have h1 : (catLineMark ++ (lab ++ (secretMid ++ (decDigits sv ++ [10])))).dropWhile
        (fun b => b != 34) =
      34 :: (lab ++ (secretMid ++ (decDigits sv ++ [10]))) := by
    have he : catLineMark ++ (lab ++ (secretMid ++ (decDigits sv ++ [10]))) =
        [67, 97, 116, 101, 103, 111, 114, 121, 32, 61, 32] ++
          (34 :: (lab ++ (secretMid ++ (decDigits sv ++ [10])))) := by
      simp [catLineMark]
    rw [he]
    exact dropWhile_prefix_stop _ _ _ _ (by decide) (by decide)
  rw [h1]
  simp only [List.tail_cons]
  have h2 : (lab ++ (secretMid ++ (decDigits sv ++ [10]))).dropWhile
        (fun b => b != 34) =
      34 :: ([59, 32, 83, 101, 99, 114, 101, 116, 32, 61, 32] ++
        (decDigits sv ++ [10])) := by
    have he : lab ++ (secretMid ++ (decDigits sv ++ [10])) =
        lab ++ (34 :: ([59, 32, 83, 101, 99, 114, 101, 116, 32, 61, 32] ++
          (decDigits sv ++ [10]))) := by
      simp [secretMid]
    rw [he]
    exact dropWhile_prefix_stop _ _ _ _ hlab34 (by decide)
  rw [h2]
  simp only [List.tail_cons]
  have h3 : ([59, 32, 83, 101, 99, 114, 101, 116, 32, 61, 32] ++
        (decDigits sv ++ [10])).dropWhile (fun b => b != 61) =
      61 :: (32 :: (decDigits sv ++ [10])) := by
    have he : [59, 32, 83, 101, 99, 114, 101, 116, 32, 61, 32] ++
          (decDigits sv ++ [10]) =
        [59, 32, 83, 101, 99, 114, 101, 116, 32] ++
          (61 :: (32 :: (decDigits sv ++ [10]))) := by
      simp
    rw [he]
    exact dropWhile_prefix_stop _ _ _ _ (by decide) (by decide)
  rw [h3]
  simp only [List.tail_cons]
  rw [show (32 :: (decDigits sv ++ [10])) = 32 :: (decDigits sv ++ [10]) from rfl]
  rw [atoiM_space_digits sv [10] (by decide)]

theorem parsePlacesVals_line (pv sv : Nat) (hpv : pv < 256) (hsv : sv ≤ 1) :
    parsePlacesVals (placesMark ++ (decDigits pv ++ (stripMid ++ (decDigits sv ++ [10])))) =
      (pv, sv) := by
  unfold parsePlacesVals
  have h1 : (placesMark ++ (decDigits pv ++ (stripMid ++
        (decDigits sv ++ [10])))).dropWhile (fun b => b != 61) =
      61 :: (32 :: (decDigits pv ++ (stripMid ++ (decDigits sv ++ [10])))) := by
    have he : placesMark ++ (decDigits pv ++ (stripMid ++ (decDigits sv ++ [10]))) =
        [80, 108, 97, 99, 101, 115, 32] ++
          (61 :: (32 :: (decDigits pv ++ (stripMid ++ (decDigits sv ++ [10]))))) := by
      simp [placesMark]
    rw [he]
    exact dropWhile_prefix_stop _ _ _ _ (by decide) (by decide)
  rw [h1]
  simp only [List.tail_cons]
  have ha1 : atoiM (32 :: (decDigits pv ++ (stripMid ++ (decDigits sv ++ [10])))) =
      (pv : Int) := by
    refine atoiM_space_digits pv _ ?_
    have hh : (stripMid ++ (decDigits sv ++ [10])).headD 0 = 59 := by
      simp [stripMid]
    rw [hh]
    omega
  rw [ha1, byteOfInt_natCast, Nat.mod_eq_of_lt hpv]
  have h2 : (32 :: (decDigits pv ++ (stripMid ++ (decDigits sv ++ [10])))).dropWhile
        (fun b => b != 61) =
      61 :: (32 :: (decDigits sv ++ [10])) := by
    have he : 32 :: (decDigits pv ++ (stripMid ++ (decDigits sv ++ [10]))) =
        (32 :: (decDigits pv ++
          [59, 32, 83, 116, 114, 105, 112, 90, 101, 114, 111, 115, 32])) ++
          (61 :: (32 :: (decDigits sv ++ [10]))) := by
      simp [stripMid]
    rw [he]
    refine dropWhile_prefix_stop _ _ _ _ ?_ (by decide)
    intro x hx
    rcases List.mem_cons.mp hx with hh | hh
    · simp [hh]
    · rcases List.mem_append.mp hh with hg | hg
      · have := decDigits_digits pv x hg
        simp
        omega
      · exact (by decide :
          ∀ x ∈ ([59, 32, 83, 116, 114, 105, 112, 90, 101, 114, 111, 115, 32] :
            List Nat), (x != 61) = true) x hg
  simp only [h2, List.tail_cons]
  rw [atoiM_space_digits sv [10] (by decide)]
  rcases Nat.le_one_iff_eq_zero_or_eq_one.mp hsv with h | h <;> subst h <;> simp

theorem firstNonBlankF_step (f : Nat) (s l rest : List Nat)
    (h : readLine s = LineRes.lineR l rest) (hlen : (l.length == 1) = false) :
    firstNonBlankF (f + 1) s = LineRes.lineR l rest := by
  simp only [firstNonBlankF, h, hlen]
  simp

theorem readTextF_step_sep (f : Nat) (acc s rest : List Nat)
    (h : readLine s = LineRes.sepR rest) : readTextF (f + 1) acc s = (acc, rest) := by
  simp only [readTextF, h]

theorem take27_ne_of_head (l : List Nat) (hne : l ≠ []) (hh : l.headD 0 ≠ 126) :
    l.take 27 ≠ List.replicate 27 126 := by
  intro h
  have h1 : (l.take 27).headD 0 = l.headD 0 := by
    cases l with
    | nil => exact absurd rfl hne
    | cons a t => rfl
  rw [h] at h1
  exact hh (by simpa using h1.symm)

theorem goodLabel_facts (lab : List Nat) (h : goodLabel lab = true) :
    lab.length ≤ 15 ∧ ∀ b ∈ lab, b ≠ 0 ∧ b ≠ 10 ∧ b ≠ 13 ∧ b ≠ 34 := by
  simp only [goodLabel, Bool.and_eq_true, decide_eq_true_eq, List.all_eq_true] at h
  refine ⟨h.1, fun b hb => ?_⟩
  have hb' := h.2 b hb
  simp only [Bool.and_eq_true, bne_iff_ne, ne_eq] at hb'
  tauto

/-- The text phase of LoadImport on an exported record's text: the first
text line is a line (so the record is not aborted), and the accumulation
loop returns the full text plus terminator and the stream after the
separator line. -/
theorem textPhase (T rest : List Nat) (hg : goodTextB T = true) :
    ∃ l3 s3, readLine (T ++ 10 :: (sepLineOut ++ rest)) = LineRes.lineR l3 s3 ∧
      readTextF (s3.length + 1) l3 s3 = (T ++ [10], rest) := by
  obtain ⟨hhb, hhl, hhs⟩ := goodTextB_head T hg
  rcases dropWhile_head_not (fun x => x != 10) T with hd | ⟨b, r, hd, hb⟩
  · have hTeq : T = T.takeWhile (fun x => x != 10) := by
      conv_lhs => rw [← List.takeWhile_append_dropWhile (p := fun x => x != 10) (l := T)]
      rw [hd, List.append_nil]
    rw [← hTeq] at hhb hhl hhs
    exact ⟨T ++ [10], sepLineOut ++ rest, readLine_line T _ hhb hhl hhs,
      readTextF_step_sep _ _ _ _ (readLine_sep rest)⟩
  · have hb10 : b = 10 := by simpa using hb
    subst hb10
    have hTeq : T = T.takeWhile (fun x => x != 10) ++ 10 :: r := by
      conv_lhs => rw [← List.takeWhile_append_dropWhile (p := fun x => x != 10) (l := T)]
      rw [hd]
    refine ⟨T.takeWhile (fun x => x != 10) ++ [10], r ++ 10 :: (sepLineOut ++ rest),
      ?_, ?_⟩
    · have hstream : T ++ 10 :: (sepLineOut ++ rest) =
          T.takeWhile (fun x => x != 10) ++ 10 :: (r ++ 10 :: (sepLineOut ++ rest)) := by
        conv_lhs => rw [hTeq]
        simp
      rw [hstream]
      exact readLine_line _ _ hhb hhl hhs
    · have hgr : goodTextB r = true :=
        goodTextB_tail _ r (fun x hx => by simpa using mem_takeWhile_sat _ T x hx)
          (hTeq ▸ hg)
      rw [readText_spec r.length r (le_refl _) hgr _ _ rest (by simp [sepLineOut])]
      conv_rhs => rw [hTeq]
      simp

/-- LoadImport inverts MpExport's output for a well-formed record: it
consumes exactly the record's exported block, reconstructs the record
field for field, and leaves the category table unchanged. -/
theorem loadImport_export (info : AppInfo) (r : Rec) (rest : List Nat)
    (hinfo : goodInfo info = true) (hr : goodRec info r = true) :
    loadImport info (exportRecord info r ++ rest) = (info, some (r, rest)) := by
  have hgi : info.labels.length = 16 ∧ ∀ lab ∈ info.labels, goodLabel lab = true := by
    simp only [goodInfo, Bool.and_eq_true, beq_iff_eq, List.all_eq_true] at hinfo
    exact hinfo
  have hgr : r.catnum < 16 ∧
      (firstIdxSat (fun lab => lab == info.labels.getD r.catnum []) info.labels ==
        some r.catnum) = true ∧
      r.places < 256 ∧ r.stripzeros ≤ 1 ∧ goodTextB r.text = true := by
    simp only [goodRec, Bool.and_eq_true, decide_eq_true_eq] at hr
    tauto
  have hfind : firstIdxSat (fun lab => lab == info.labels.getD r.catnum [])
      info.labels = some r.catnum := by
    have := hgr.2.1
    simpa using this
  have hlabmem : info.labels.getD r.catnum [] ∈ info.labels :=
    getD_mem _ _ _ (by omega)
  obtain ⟨hlablen, hlabbytes⟩ := goodLabel_facts _ (hgi.2 _ hlabmem)
  have hlab34 : ∀ b ∈ info.labels.getD r.catnum [], (b != 34) = true := by
    intro b hb
    simp [(hlabbytes b hb).2.2.2]
  have hsvlt : (if r.secret then 1 else 0 : Nat) < 10 := by
    cases r.secret <;> simp
  have hdd : decDigits (if r.secret then 1 else 0) =
      [48 + (if r.secret then 1 else 0)] := decDigits_lt10 _ hsvlt
  have hddp : ∀ b ∈ decDigits r.places, 48 ≤ b ∧ b ≤ 57 :=
    fun b hb => decDigits_digits r.places b hb
  have hdds : decDigits r.stripzeros = [48 + r.stripzeros] :=
    decDigits_lt10 _ (by omega)
  -- the category-line content and the streams after each line
  have hstream : exportRecord info r ++ rest =
      (catLineMark ++ (info.labels.getD r.catnum [] ++
        (secretMid ++ decDigits (if r.secret then 1 else 0)))) ++
        10 :: (placesLineOut r.places r.stripzeros ++
          ((r.text ++ [10]) ++ (sepLineOut ++ rest))) := by
    simp [exportRecord, categoryLineOut, List.append_assoc]
  have hbytes1 : ∀ b ∈ catLineMark ++ (info.labels.getD r.catnum [] ++
      (secretMid ++ decDigits (if r.secret then 1 else 0))),
      b ≠ 0 ∧ b ≠ 10 ∧ b ≠ 13 := by
    intro b hb
    rcases List.mem_append.mp hb with h1 | h1
    · exact (by decide : ∀ x ∈ catLineMark, x ≠ 0 ∧ x ≠ 10 ∧ x ≠ 13) b h1
    rcases List.mem_append.mp h1 with h2 | h2
    · have := hlabbytes b h2
      tauto
    rcases List.mem_append.mp h2 with h3 | h3
    · exact (by decide : ∀ x ∈ secretMid, x ≠ 0 ∧ x ≠ 10 ∧ x ≠ 13) b h3
    · rw [hdd] at h3
      simp at h3
      omega
  have hlen1 : (catLineMark ++ (info.labels.getD r.catnum [] ++
      (secretMid ++ decDigits (if r.secret then 1 else 0)))).length ≤ 254 := by
    rw [hdd]
    simp only [List.length_append, List.length_cons, List.length_nil]
    rw [show catLineMark.length = 12 from rfl, show secretMid.length = 12 from rfl]
    omega
  have hsep1 : (catLineMark ++ (info.labels.getD r.catnum [] ++
      (secretMid ++ decDigits (if r.secret then 1 else 0)))).take 27 ≠
      List.replicate 27 126 := by
    apply take27_ne_of_head
    · simp [catLineMark]
    · simp [catLineMark]
  have hline1 := readLine_line _ (placesLineOut r.places r.stripzeros ++
    ((r.text ++ [10]) ++ (sepLineOut ++ rest))) hbytes1 hlen1 hsep1
  -- the places-line content
  have hbytes2 : ∀ b ∈ placesMark ++ (decDigits r.places ++
      (stripMid ++ decDigits r.stripzeros)), b ≠ 0 ∧ b ≠ 10 ∧ b ≠ 13 := by
    intro b hb
    rcases List.mem_append.mp hb with h1 | h1
    · exact (by decide : ∀ x ∈ placesMark, x ≠ 0 ∧ x ≠ 10 ∧ x ≠ 13) b h1
    rcases List.mem_append.mp h1 with h2 | h2
    · have := hddp b h2
      omega
    rcases List.mem_append.mp h2 with h3 | h3
    · exact (by decide : ∀ x ∈ stripMid, x ≠ 0 ∧ x ≠ 10 ∧ x ≠ 13) b h3
    · rw [hdds] at h3
      simp at h3
      omega
  have hlen2 : (placesMark ++ (decDigits r.places ++
      (stripMid ++ decDigits r.stripzeros))).length ≤ 254 := by
    have h3 := decDigits_len_le r.places (by omega)
    rw [hdds]
    simp only [List.length_append, List.length_cons, List.length_nil]
    rw [show placesMark.length = 9 from rfl, show stripMid.length = 15 from rfl]
    omega
  have hsep2 : (placesMark ++ (decDigits r.places ++
      (stripMid ++ decDigits r.stripzeros))).take 27 ≠ List.replicate 27 126 := by
    apply take27_ne_of_head
    · simp [placesMark]
    · simp [placesMark]
  have hline2 := readLine_line _ ((r.text ++ [10]) ++ (sepLineOut ++ rest))
    hbytes2 hlen2 hsep2
  have hplaces : placesLineOut r.places r.stripzeros ++
      ((r.text ++ [10]) ++ (sepLineOut ++ rest)) =
      (placesMark ++ (decDigits r.places ++ (stripMid ++ decDigits r.stripzeros))) ++
        10 :: ((r.text ++ [10]) ++ (sepLineOut ++ rest)) := by
    simp [placesLineOut, List.append_assoc]
  -- the text phase
  obtain ⟨l3, s3, hrl3, hrt3⟩ := textPhase r.text rest hgr.2.2.2.2
  have htext : (r.text ++ [10]) ++ (sepLineOut ++ rest) =
      r.text ++ 10 :: (sepLineOut ++ rest) := by
    simp
  -- the two stage computations
  have hcat : stageCategory info
      ((catLineMark ++ (info.labels.getD r.catnum [] ++
        (secretMid ++ decDigits (if r.secret then 1 else 0)))) ++ [10])
      (placesLineOut r.places r.stripzeros ++ ((r.text ++ [10]) ++ (sepLineOut ++ rest))) =
      (r.catnum, r.secret, info,
        some ((placesMark ++ (decDigits r.places ++
            (stripMid ++ decDigits r.stripzeros))) ++ [10],
          (r.text ++ [10]) ++ (sepLineOut ++ rest))) := by
    unfold stageCategory
    have htk : (((catLineMark ++ (info.labels.getD r.catnum [] ++
        (secretMid ++ decDigits (if r.secret then 1 else 0)))) ++ [10]).take 12 ==
        catLineMark) = true := by
      rw [List.append_assoc, show (12 : Nat) = catLineMark.length from rfl,
        List.take_left]
      simp
    rw [if_pos htk]
    have hcaN : categoryOf info
        ((catLineMark ++ (info.labels.getD r.catnum [] ++
          (secretMid ++ decDigits (if r.secret then 1 else 0)))) ++ [10]) =
        (r.catnum, info) := by
      unfold categoryOf
      have hshape : (catLineMark ++ (info.labels.getD r.catnum [] ++
          (secretMid ++ decDigits (if r.secret then 1 else 0)))) ++ [10] =
          catLineMark ++ (info.labels.getD r.catnum [] ++
            (34 :: ([59, 32, 83, 101, 99, 114, 101, 116, 32, 61, 32] ++
              (decDigits (if r.secret then 1 else 0) ++ [10])))) := by
        simp [secretMid]
      rw [hshape, parseCatName_line _ _ hlab34 hlablen]
      unfold lookupOrAllocate
      rw [hfind]
    have hsec : parseSecretVal
        ((catLineMark ++ (info.labels.getD r.catnum [] ++
          (secretMid ++ decDigits (if r.secret then 1 else 0)))) ++ [10]) =
        r.secret := by
      have hshape : (catLineMark ++ (info.labels.getD r.catnum [] ++
          (secretMid ++ decDigits (if r.secret then 1 else 0)))) ++ [10] =
          catLineMark ++ (info.labels.getD r.catnum [] ++
            (secretMid ++ (decDigits (if r.secret then 1 else 0) ++ [10]))) := by
        simp
      rw [hshape, parseSecretVal_line _ _ hlab34]
      cases r.secret <;> decide
    rw [hcaN, hsec, hplaces, hline2]
  have hpl : stagePlaces
      ((placesMark ++ (decDigits r.places ++ (stripMid ++ decDigits r.stripzeros))) ++ [10])
      ((r.text ++ [10]) ++ (sepLineOut ++ rest)) =
      (r.places, r.stripzeros, some (l3, s3)) := by
    unfold stagePlaces
    have htk : (((placesMark ++ (decDigits r.places ++
        (stripMid ++ decDigits r.stripzeros))) ++ [10]).take 9 == placesMark) = true := by
      rw [List.append_assoc, show (9 : Nat) = placesMark.length from rfl,
        List.take_left]
      simp
    rw [if_pos htk]
    have hshape : (placesMark ++ (decDigits r.places ++
        (stripMid ++ decDigits r.stripzeros))) ++ [10] =
        placesMark ++ (decDigits r.places ++
          (stripMid ++ (decDigits r.stripzeros ++ [10]))) := by
      simp
    rw [hshape, parsePlacesVals_line r.places r.stripzeros (by omega) (by omega)]
    rw [htext, hrl3]
  -- now unfold loadImport and chain the stages
  rw [hstream]
  have hfnb := firstNonBlankF_step
    (((catLineMark ++ (info.labels.getD r.catnum [] ++
      (secretMid ++ decDigits (if r.secret then 1 else 0)))) ++
      10 :: (placesLineOut r.places r.stripzeros ++
        ((r.text ++ [10]) ++ (sepLineOut ++ rest)))).length)
    _ _ _ hline1 (by simp [catLineMark])
  simp only [loadImport, hfnb, hcat, hpl, hrt3]
  simp

theorem recDiffers_refl (a : Rec) : recDiffers a a = false := by
  simp [recDiffers]

theorem loadImport_nil (info : AppInfo) : loadImport info [] = (info, none) := rfl

/-- An import identical to the record its title finds is skipped. -/
theorem mergeOne_skip (oracle : Nat → ReplyType) (store : List Rec) (allok : Bool)
    (k : Nat) (r : Rec)
    (hfind : (findRecordIdx r.text store).map (fun i => store.getD i defRec) = some r) :
    mergeOne oracle store allok k r = (store, allok, k) := by
  unfold mergeOne
  cases hidx : findRecordIdx r.text store with
  | none =>
    rw [hidx] at hfind
    simp at hfind
  | some i =>
    rw [hidx] at hfind
    have hget : store.getD i defRec = r := by simpa using hfind
    simp only [hget, recDiffers_refl]
    simp

theorem processExportList (oracle : Nat → ReplyType) (info : AppInfo)
    (store : List Rec) (allok : Bool) (k : Nat) :
    ∀ (rs : List Rec) (fuel : Nat), rs.length < fuel →
      goodInfo info = true →
      (∀ r ∈ rs, goodRec info r = true) →
      (∀ r ∈ rs, (findRecordIdx r.text store).map (fun i => store.getD i defRec) =
        some r) →
      processImportsF oracle fuel ((rs.map (exportRecord info)).flatten)
          store info allok k =
        (store, info, allok, k) := by
  intro rs
  induction rs generalizing allok k with
  | nil =>
    intro fuel hf _ _ _
    obtain ⟨f, rfl⟩ : ∃ f, fuel = f + 1 := ⟨fuel - 1, by omega⟩
    simp only [List.map_nil, List.flatten_nil, processImportsF, loadImport_nil]
  | cons r rs' ih =>
    intro fuel hf hgi hgr hfind
    obtain ⟨f, rfl⟩ : ∃ f, fuel = f + 1 := ⟨fuel - 1, by omega⟩
    simp only [List.map_cons, List.flatten_cons]
    have hload := loadImport_export info r ((rs'.map (exportRecord info)).flatten)
      hgi (hgr r (by simp))
    have hskip := mergeOne_skip oracle store allok k r (hfind r (by simp))
    simp only [processImportsF, hload, hskip]
    exact ih allok k f (by simp only [List.length_cons] at hf; omega) hgi
      (fun x hx => hgr x (by simp [hx]))
      (fun x hx => hfind x (by simp [hx]))

theorem length_le_flatten_export (info : AppInfo) :
    ∀ rs : List Rec, rs.length ≤ ((rs.map (exportRecord info)).flatten).length := by
  intro rs
  induction rs with
  | nil => simp
  | cons r rs' ih =>
    simp only [List.map_cons, List.flatten_cons, List.length_append, List.length_cons]
    have h1 : catLineMark.length ≤ (exportRecord info r).length := by
      simp [exportRecord, categoryLineOut]
    rw [show catLineMark.length = 12 from rfl] at h1
    omega

set_option maxRecDepth 40000 in
/-- C8 counterexample: for the database holding two records both titled
"A" (texts "A\nB" and "A\nC"), re-importing the exact exported text is
not a no-op: the second import's title lookup finds the first record,
which differs, so the Confirm callback runs (once) and, replying No, the
store grows to three records — the claim's "zero changes, every record
classified identical" fails at this concrete input. -/
theorem c8_counterexample :
    processImports (fun _ => ReplyType.no) (exportDB c5Info [c8r1, c8r2])
        [c8r1, c8r2] c5Info false 0 =
      ([c8r1, c8r2, c8r2], c5Info, false, 1) ∧
    processImports (fun _ => ReplyType.no) (exportDB c5Info [c8r1, c8r2])
        [c8r1, c8r2] c5Info false 0 ≠
      ([c8r1, c8r2], c5Info, false, 0) := by
  constructor
  · decide
  · decide

/-- C8 amended: for every database whose records are pairwise
distinguishable by title lookup (each record's FindRecord on its own
title finds that record itself) and individually well formed for the
text format (well-formed category table; category index canonical;
places a Byte; stripzeros 0 or 1; text free of NUL and CR, no line
over the 255-byte ReadLine buffer and none mistakable for a separator),
re-importing the exact text produced by exporting the database into the
same database produces zero changes: every imported record is classified
as identical to an existing record, the store and the category table are
unchanged, and the Confirm callback is never invoked. -/
theorem c8_reimport_amended (oracle : Nat → ReplyType) (info : AppInfo)
    (records : List Rec)
    (hinfo : goodInfo info = true)
    (hrecs : ∀ r ∈ records, goodRec info r = true)
    (hfind : ∀ r ∈ records,
      (findRecordIdx r.text records).map (fun i => records.getD i defRec) = some r) :
    processImports oracle (exportDB info records) records info false 0 =
      (records, info, false, 0) := by
  unfold processImports exportDB
  refine processExportList oracle info records false 0 records _ ?_ hinfo hrecs hfind
  have := length_le_flatten_export info records
  omega

set_option maxRecDepth 40000 in
/-- Witness for the amended C8 on the one-record database `[c8w]`. -/
theorem c8_witness :
    processImports (fun _ => ReplyType.yes) (exportDB c5Info [c8w]) [c8w] c5Info
        false 0 =
      ([c8w], c5Info, false, 0) :=
  c8_reimport_amended (fun _ => ReplyType.yes) c5Info [c8w] (by decide) (by decide)
    (by decide)
